import Mathlib

/-!
Shallow embedding of the Leadflow backend (src/main.py, src/database.py):
the in-memory document store (`MemoryCollection`, `MemoryDB`), the filter
matcher `_match_filter`, the update operators of `update_one`, the
repository helper `get_documents`, the lead-advancement endpoint
`advance_lead`, and the WebSocket `ConnectionManager`.

Python dictionaries are embedded as association lists with unique keys in
insertion order; Python values as the inductive `Value`. Machine-level
concerns absent from the claims (ObjectId string encoding in `to_obj_id`,
wall-clock reading) are abstracted: ids are plain strings, and the clock is
an explicit `now : Nat` parameter.
-/

/-- A Python value as used by the store: None, str, int/timestamp, bool,
list, or dict. Timestamps (`datetime.now(timezone.utc)`) are embedded as
naturals. -/
inductive Value where
  | null : Value
  | str : String → Value
  | nat : Nat → Value
  | bool : Bool → Value
  | list : List Value → Value
  | doc : List (String × Value) → Value

mutual

/-- Structural equality on values, matching Python `==` on the shapes the
store holds (dict equality is compared in binding order; the stores built
by this program keep a canonical insertion order, so this coincides with
Python's order-insensitive dict equality on all reachable comparisons). -/
def Value.decEq : (a b : Value) → Decidable (a = b)
  | .null, .null => isTrue rfl
  | .str a, .str b =>
    match String.decEq a b with
    | isTrue h => isTrue (by rw [h])
    | isFalse h => isFalse (by intro hh; cases hh; exact h rfl)
  | .nat a, .nat b =>
    match Nat.decEq a b with
    | isTrue h => isTrue (by rw [h])
    | isFalse h => isFalse (by intro hh; cases hh; exact h rfl)
  | .bool a, .bool b =>
    match Bool.decEq a b with
    | isTrue h => isTrue (by rw [h])
    | isFalse h => isFalse (by intro hh; cases hh; exact h rfl)
  | .list xs, .list ys =>
    match Value.decEqList xs ys with
    | isTrue h => isTrue (by rw [h])
    | isFalse h => isFalse (by intro hh; cases hh; exact h rfl)
  | .doc xs, .doc ys =>
    match Value.decEqDoc xs ys with
    | isTrue h => isTrue (by rw [h])
    | isFalse h => isFalse (by intro hh; cases hh; exact h rfl)
  | .null, .str _ | .null, .nat _ | .null, .bool _ | .null, .list _ | .null, .doc _
  | .str _, .null | .str _, .nat _ | .str _, .bool _ | .str _, .list _ | .str _, .doc _
  | .nat _, .null | .nat _, .str _ | .nat _, .bool _ | .nat _, .list _ | .nat _, .doc _
  | .bool _, .null | .bool _, .str _ | .bool _, .nat _ | .bool _, .list _ | .bool _, .doc _
  | .list _, .null | .list _, .str _ | .list _, .nat _ | .list _, .bool _ | .list _, .doc _
  | .doc _, .null | .doc _, .str _ | .doc _, .nat _ | .doc _, .bool _ | .doc _, .list _ =>
    isFalse (by intro h; cases h)

/-- Equality on lists of values. -/
def Value.decEqList : (a b : List Value) → Decidable (a = b)
  | [], [] => isTrue rfl
  | [], _ :: _ => isFalse (by intro h; cases h)
  | _ :: _, [] => isFalse (by intro h; cases h)
  | x :: xs, y :: ys =>
    match Value.decEq x y, Value.decEqList xs ys with
    | isTrue h1, isTrue h2 => isTrue (by rw [h1, h2])
    | isFalse h1, _ => isFalse (by intro hh; cases hh; exact h1 rfl)
    | _, isFalse h2 => isFalse (by intro hh; cases hh; exact h2 rfl)

/-- Equality on dict binding lists. -/
def Value.decEqDoc : (a b : List (String × Value)) → Decidable (a = b)
  | [], [] => isTrue rfl
  | [], _ :: _ => isFalse (by intro h; cases h)
  | _ :: _, [] => isFalse (by intro h; cases h)
  | (k1, v1) :: xs, (k2, v2) :: ys =>
    match String.decEq k1 k2, Value.decEq v1 v2, Value.decEqDoc xs ys with
    | isTrue h1, isTrue h2, isTrue h3 => isTrue (by rw [h1, h2, h3])
    | isFalse h1, _, _ => isFalse (by intro hh; cases hh; exact h1 rfl)
    | _, isFalse h2, _ => isFalse (by intro hh; cases hh; exact h2 rfl)
    | _, _, isFalse h3 => isFalse (by intro hh; cases hh; exact h3 rfl)

end

instance : DecidableEq Value := Value.decEq

/-- A Python dict: association list in insertion order with unique keys. -/
abbrev Doc := List (String × Value)

/-- Dict lookup `d[k]` / `d.get(k)` as an `Option`: the value at the first
binding of `k`. -/
def dGet : Doc → String → Option Value
  | [], _ => none
  | p :: d, k => if p.1 == k then some p.2 else dGet d k

/-- Python `doc.get(k)`: `None` when the key is absent. -/
def pyGet (d : Doc) (k : String) : Value :=
  (dGet d k).getD .null

/-- Dict assignment `d[k] = v`: replace the binding in place when the key
exists, else append a new binding at the end. -/
def dSet : Doc → String → Value → Doc
  | [], k, v => [(k, v)]
  | p :: d, k, v => if p.1 == k then (k, v) :: d else p :: dSet d k v

/-- Dict `d.pop(k)`: the remaining dict after removing the binding of `k`. -/
def dRemove (d : Doc) (k : String) : Doc :=
  d.filter (fun p => p.1 ≠ k)

/-- Python truthiness for the values we store: `None`, `""`, `0`, `False`,
`[]` and `\x7b\x7d` are falsy. -/
def pyTruthy : Value → Bool
  | .null => false
  | .str s => !s.isEmpty
  | .nat n => n != 0
  | .bool b => b
  | .list xs => !xs.isEmpty
  | .doc fs => !fs.isEmpty

/-- Python `str(v)` restricted to the values it is applied to in the code
(`str(project.get("_id"))`, `str(updated.pop("_id"))`, both id strings);
the list/doc branches are placeholders never reached on store-generated
ids. -/
def pyToString : Value → String
  | .null => "None"
  | .str s => s
  | .nat n => toString n
  | .bool b => if b then "True" else "False"
  | .list _ => "<list>"
  | .doc _ => "<dict>"

example : pyGet [("a", .nat 1)] "a" = .nat 1 := rfl
example : pyGet [("a", .nat 1)] "b" = .null := rfl
example : dSet [("a", .nat 1), ("b", .nat 2)] "a" (.nat 7)
    = [("a", .nat 7), ("b", .nat 2)] := rfl
example : dSet [("a", .nat 1)] "c" (.nat 7) = [("a", .nat 1), ("c", .nat 7)] := rfl

/-- One entry of `_match_filter` (src/database.py): if the filter value is a
dict containing the key `"$in"`, test membership of `doc.get(k)` in the
candidates; otherwise test `doc.get(k) == v`. An `$in` operand that is not a
sequence would raise in Python; no call site produces one, and it is
embedded as a non-match. -/
def matchEntry (d : Doc) (k : String) (v : Value) : Bool :=
  match v with
  | .doc fields =>
    match dGet fields "$in" with
    | some (.list cands) => decide (pyGet d k ∈ cands)
    | some _ => false
    | none => decide (pyGet d k = v)
  | _ => decide (pyGet d k = v)

/-- `_match_filter(doc, filt)` of src/database.py: the document matches when
every filter entry matches. -/
def match_filter (d : Doc) (filt : Doc) : Bool :=
  filt.all fun p => matchEntry d p.1 p.2

/-- The in-memory collection: `store` is the Python dict `id -> doc` in
insertion order, `auto` the id counter. -/
structure MemoryCollection where
  name : String
  store : List (String × Doc)
  auto : Nat
deriving DecidableEq

/-- `MemoryCollection.find`: iterate the store's documents in insertion
order and yield each match. Python yields `dict(doc)` — a shallow copy; in
this pure value model a copy is the value itself (the sharing of nested
objects is modelled separately by the heap embedding below). -/
def MemoryCollection.find (c : MemoryCollection) (filter_dict : Doc) : List Doc :=
  (c.store.map (fun p => p.2)).filter (fun d => match_filter d filter_dict)

/-- `MemoryCollection.find_one`: first match or none. -/
def MemoryCollection.find_one (c : MemoryCollection) (filter_dict : Doc) : Option Doc :=
  (c.find filter_dict).head?

/-- `MemoryCollection.insert_one`: generate `mem_<name>_<auto+1>`, copy the
document, overwrite its `_id`, store it under the fresh key (appended at the
dict's end), return the id with the new collection state. -/
def MemoryCollection.insert_one (c : MemoryCollection) (data : Doc) :
    String × MemoryCollection :=
  let auto' := c.auto + 1
  let i := "mem_" ++ c.name ++ "_" ++ toString auto'
  let to_insert := dSet data "_id" (.str i)
  (i, { c with auto := auto', store := c.store ++ [(i, to_insert)] })

/-- The `$set` half of `update_one`: assign every field in order. -/
def applySet (d : Doc) (fields : List (String × Value)) : Doc :=
  fields.foldl (fun acc p => dSet acc p.1 p.2) d

/-- One `$push` field: `current.setdefault(k, []); current[k].append(v)`.
Appending to a non-list value raises in Python, embedded as `none`. -/
def pushOne (d : Doc) (k : String) (v : Value) : Option Doc :=
  match dGet d k with
  | some (.list xs) => some (dSet d k (.list (xs ++ [v])))
  | some _ => none
  | none => some (dSet d k (.list [v]))

/-- The `$push` half of `update_one`: apply every field in order. -/
def applyPush (d : Doc) (fields : List (String × Value)) : Option Doc :=
  fields.foldlM (fun acc p => pushOne acc p.1 p.2) d

/-- The body of `update_one` applied to the located document: `$set` fields
first, then `$push` fields. A `$set`/`$push` operand that is not a dict
would raise in Python (`.items()` on a non-dict), embedded as `none`. -/
def applyUpdate (current update_doc : Doc) : Option Doc :=
  match dGet update_doc "$set" with
  | some (.doc _) | none =>
    let afterSet :=
      match dGet update_doc "$set" with
      | some (.doc fields) => applySet current fields
      | _ => current
    match dGet update_doc "$push" with
    | some (.doc fields) => applyPush afterSet fields
    | some _ => none
    | none => some afterSet
  | some _ => none

/-- `MemoryCollection.update_one`: locate the first match with `find_one`
(return the collection unchanged when none matches), look the stored
document up by its `_id` (a lookup failure is Python's `KeyError`, embedded
as `none`), apply `$set` then `$push` to it, and store the result back under
the same key. -/
def MemoryCollection.update_one (c : MemoryCollection)
    (filter_dict update_doc : Doc) : Option MemoryCollection :=
  match c.find_one filter_dict with
  | none => some c
  | some doc =>
    -- `if not doc: return` also covers a located empty document
    if doc.isEmpty then some c else
    match pyGet doc "_id" with
    | .str i =>
      match (c.store.find? (fun p => p.1 == i)).map (fun p => p.2) with
      | none => none
      | some current =>
        (applyUpdate current update_doc).map (fun nd =>
          { c with store := c.store.map (fun p => if p.1 == i then (p.1, nd) else p) })
    | _ => none

/-- The in-memory database: named collections in creation order. -/
structure MemoryDB where
  collections : List (String × MemoryCollection)
deriving DecidableEq

/-- `db[name]` (read side): the named collection, or a fresh empty one when
it was never referenced. Python's `__getitem__` also registers the fresh
collection; that side effect is observable only through
`list_collection_names`, which no claim mentions, so reads and writes are
split into `dbGet`/`dbSet` here. -/
def dbGet (db : MemoryDB) (name : String) : MemoryCollection :=
  ((db.collections.find? (fun p => p.1 == name)).map (fun p => p.2)).getD
    ⟨name, [], 0⟩

/-- Store an updated collection back under its name. -/
def dbSet (db : MemoryDB) (name : String) (c : MemoryCollection) : MemoryDB :=
  if db.collections.any (fun p => p.1 == name) then
    ⟨db.collections.map (fun p => if p.1 == name then (p.1, c) else p)⟩
  else
    ⟨db.collections ++ [(name, c)]⟩

/-- Python slice `docs[:limit]` for an `int` limit: a non-negative limit
takes a prefix; a negative limit drops that many elements from the end. -/
def pySliceTo (docs : List Doc) (limit : Int) : List Doc :=
  if 0 ≤ limit then docs.take limit.toNat
  else docs.take (docs.length - limit.natAbs)

/-- `get_documents(collection_name, filter_dict, limit)` of src/database.py:
list all matches of `filter_dict or` the empty filter, then truncate with
`docs[:limit]` only when `limit` is truthy (not `None` and not `0`). -/
def get_documents (db : MemoryDB) (collection_name : String)
    (filter_dict : Option Doc) (limit : Option Int) : List Doc :=
  let docs := (dbGet db collection_name).find (filter_dict.getD [])
  match limit with
  | some n => if n != 0 then pySliceTo docs n else docs
  | none => docs

/-- The errors `advance_lead` can surface: the two `HTTPException`s it
raises itself and the uncaught Python runtime errors of its body
(`TypeError` from a non-sequence `steps`, `IndexError` from `steps[-1]` on
an empty sequence, the store errors of `update_one`, and a failed re-read of
the updated lead). -/
inductive AdvanceErr where
  | leadNotFound
  | projectNotFound
  | typeError
  | indexError
  | updateError
  | responseError
deriving DecidableEq

/-- One emitted realtime event: target project id and message payload. -/
structure BroadcastEvt where
  project_id : String
  message : Doc
deriving DecidableEq

/-- `project.get("steps", [])` followed by the sequence operations of
`advance_lead`: an absent field yields `[]`; a non-sequence value would make
`in` / `.index` / `[-1]` raise, embedded as `none` (TypeError). -/
def stepsOf (project : Doc) : Option (List Value) :=
  match dGet project "steps" with
  | some (.list xs) => some xs
  | some _ => none
  | none => some []

/-- The project lookup of `advance_lead` (src/main.py line 257): the demo
project by name when the lead's `project_id` is falsy, else the project with
that id. `to_obj_id` is abstracted to the id value itself. -/
def project_lookup (db : MemoryDB) (lead : Doc) : Option Doc :=
  if pyTruthy (pyGet lead "project_id") then
    (dbGet db "project").find_one [("_id", pyGet lead "project_id")]
  else
    (dbGet db "project").find_one [("name", .str "Leadflow Demo")]

/-- The new-step computation of `advance_lead` (src/main.py lines 262-270).
A provided `to_step` is taken only when truthy (non-empty) and a member of
`steps`; otherwise the step after `current_step`'s first index, clamped to
the last index; `steps.index` raising `ValueError` (index = length) falls
back to `steps[0]` when `steps` is non-empty, else to `current_step`. -/
def compute_new_step (steps : List Value) (current_step : Value)
    (to_step : Option String) : Value :=
  let fallback :=
    let idx := steps.indexOf current_step
    if idx < steps.length then
      steps.getD (min (idx + 1) (steps.length - 1)) .null
    else if steps.isEmpty then current_step
    else steps.getD 0 .null
  match to_step with
  | some s => if !s.isEmpty && decide (Value.str s ∈ steps) then .str s else fallback
  | none => fallback

/-- The status computation of `advance_lead` (src/main.py lines 272-274),
for a non-empty `steps` (on an empty one `steps[-1]` raises, which
`advance_lead` below surfaces as `indexError` before calling this). -/
def compute_status (steps : List Value) (prior_status new_step : Value) : Value :=
  if new_step = steps.getD (steps.length - 1) .null then .str "won" else prior_status

/-- The history entry appended by `advance_lead` (the dict literal of the
`$push` operand in src/main.py lines 281-288). -/
def advanceEntry (pid lead_id : String) (from_step new_step : Value)
    (now : Nat) : Doc :=
  [("project_id", .str pid), ("lead_id", .str lead_id),
   ("type", .str "advanced"), ("from_step", from_step),
   ("to_step", new_step), ("created_at", .nat now)]

/-- The `advance_lead` endpoint of src/main.py: read the lead, resolve its
project, compute the new step and status, write the `$set`+`$push` update,
emit the broadcast event, and return the re-read lead with `_id` popped into
`id`. Both `datetime.now` calls of the body are embedded as the single
instant `now`. The broadcast's mutation of the connection registry is
modelled separately by `ConnectionManager.broadcast`; here the emitted
events are returned. -/
def advance_lead (db : MemoryDB) (lead_id : String) (to_step : Option String)
    (now : Nat) : Except AdvanceErr (MemoryDB × List BroadcastEvt × Doc) :=
  match (dbGet db "lead").find_one [("_id", .str lead_id)] with
  | none => .error .leadNotFound
  | some lead =>
    match project_lookup db lead with
    | none => .error .projectNotFound
    | some project =>
      match stepsOf project with
      | none => .error .typeError
      | some steps =>
        let current_step := pyGet lead "current_step"
        let new_step := compute_new_step steps current_step to_step
        if steps.isEmpty then .error .indexError
        else
          let status :=
            compute_status steps ((dGet lead "status").getD (.str "active")) new_step
          let entry : Doc :=
            advanceEntry (pyToString (pyGet project "_id")) lead_id
              current_step new_step now
          let upd : Doc :=
            [("$set", .doc [("current_step", new_step), ("status", status),
                            ("updated_at", .nat now)]),
             ("$push", .doc [("history", .doc entry)])]
          match (dbGet db "lead").update_one [("_id", .str lead_id)] upd with
          | none => .error .updateError
          | some leadCol =>
            let db1 := dbSet db "lead" leadCol
            let evt : BroadcastEvt :=
              ⟨pyToString (pyGet project "_id"),
               [("type", .str "lead_advanced"), ("lead_id", .str lead_id),
                ("from", current_step), ("to", new_step)]⟩
            match (dbGet db1 "lead").find_one [("_id", .str lead_id)] with
            | none => .error .responseError
            | some updated =>
              match dGet updated "_id" with
              | none => .error .responseError
              | some idv =>
                .ok (db1, [evt],
                  dSet (dRemove updated "_id") "id" (.str (pyToString idv)))

/-- A sequence of advancement calls on one lead, each with its requested
step and instant, keeping only the database state. -/
def advance_seq (db : MemoryDB) (lead_id : String) :
    List (Option String × Nat) → Except AdvanceErr MemoryDB
  | [] => .ok db
  | c :: cs =>
    match advance_lead db lead_id c.1 c.2 with
    | .error e => .error e
    | .ok (db', _, _) => advance_seq db' lead_id cs

/-- The WebSocket registry of src/main.py: `active_connections` maps a
project id to its list of live connections (observers are identified by
naturals; the transport is abstracted by the failure predicate passed to
`broadcast`). -/
structure ConnectionManager where
  active_connections : List (String × List Nat)
deriving DecidableEq

/-- The observer list registered for a project
(`self.active_connections.get(project_id, [])`). -/
def connsOf (m : ConnectionManager) (project_id : String) : List Nat :=
  ((m.active_connections.find? (fun p => p.1 == project_id)).map
    (fun p => p.2)).getD []

/-- `ConnectionManager.disconnect`: remove the first occurrence of the
observer from the project's list; no-op when the project is unknown or the
observer absent (the `ValueError` is swallowed). -/
def ConnectionManager.disconnect (m : ConnectionManager) (project_id : String)
    (ws : Nat) : ConnectionManager :=
  if m.active_connections.any (fun p => p.1 == project_id) then
    ⟨m.active_connections.map
      (fun p => if p.1 == project_id then (p.1, p.2.erase ws) else p)⟩
  else m

/-- `ConnectionManager.broadcast`: iterate over a snapshot of the project's
observer list; a failed send (`except Exception`) disconnects that observer
and the loop continues. `fails` abstracts whether `send_json` raises for a
given observer. Returns the observers that received the message, in send
order, with the final registry; the function is total, mirroring that
broadcast never propagates an error to its caller. -/
def broadcastLoop (project_id : String) (fails : Nat → Bool) :
    List Nat → ConnectionManager → List Nat → List Nat × ConnectionManager
  | [], m, sent => (sent, m)
  | ws :: rest, m, sent =>
    if fails ws then
      broadcastLoop project_id fails rest (m.disconnect project_id ws) sent
    else
      broadcastLoop project_id fails rest m (sent ++ [ws])

/-- `ConnectionManager.broadcast` proper: loop over `list(...)` of the
current observer list. -/
def ConnectionManager.broadcast (m : ConnectionManager) (project_id : String)
    (fails : Nat → Bool) : List Nat × ConnectionManager :=
  broadcastLoop project_id fails (connsOf m project_id) m []

/-! Basic dictionary lemmas. -/

theorem dGet_dSet_self (d : Doc) (k : String) (v : Value) :
    dGet (dSet d k v) k = some v := by
  induction d with
  | nil => simp [dGet, dSet]
  | cons p d ih =>
    by_cases h : p.1 = k
    · simp [dGet, dSet, h]
    · simp [dGet, dSet, h, ih]

theorem dGet_dSet_ne (d : Doc) (k k' : String) (v : Value) (h : k ≠ k') :
    dGet (dSet d k v) k' = dGet d k' := by
  induction d with
  | nil => simp [dGet, dSet, h]
  | cons p d ih =>
    by_cases hp : p.1 = k
    · simp [dGet, dSet, hp, h, Ne.symm h]
    · by_cases hp' : p.1 = k'
      · simp [dGet, dSet, hp, hp', Ne.symm h]
      · simp [dGet, dSet, hp, hp', ih]

theorem dGet_applySet_not_mem (fields : List (String × Value)) (d : Doc)
    (k : String) (h : ∀ p ∈ fields, p.1 ≠ k) :
    dGet (applySet d fields) k = dGet d k := by
  induction fields generalizing d with
  | nil => rfl
  | cons p fs ih =>
    have h1 : applySet d (p :: fs) = applySet (dSet d p.1 p.2) fs := rfl
    rw [h1, ih (dSet d p.1 p.2) (fun q hq => h q (List.mem_cons_of_mem _ hq)),
      dGet_dSet_ne _ _ _ _ (h p (List.mem_cons_self _ _))]

theorem dGet_applySet_mem (fields : List (String × Value)) (d : Doc)
    (k : String) (v : Value) (hnd : (fields.map Prod.fst).Nodup)
    (hmem : (k, v) ∈ fields) :
    dGet (applySet d fields) k = some v := by
  induction fields generalizing d with
  | nil => cases hmem
  | cons p fs ih =>
    have h1 : applySet d (p :: fs) = applySet (dSet d p.1 p.2) fs := rfl
    rcases List.mem_cons.1 hmem with hh | ht
    · subst hh
      rw [h1, dGet_applySet_not_mem fs _ k ?hni, dGet_dSet_self]
      case hni =>
        intro q hq hqk
        have hm : q.1 ∈ List.map Prod.fst fs := List.mem_map_of_mem Prod.fst hq
        rw [hqk] at hm
        exact (List.nodup_cons.1 hnd).1 hm
    · exact h1 ▸ ih (dSet d p.1 p.2) (List.nodup_cons.1 hnd).2 ht

/-- The value of field `k` seen as a sequence by `$push`: the stored list,
the empty list when the field is absent (`setdefault`), `none` when the
stored value is not a list (`.append` raises). -/
def seqField (d : Doc) (k : String) : Option (List Value) :=
  match dGet d k with
  | some (.list xs) => some xs
  | some _ => none
  | none => some []

theorem pushOne_eq (d : Doc) (k : String) (v : Value) :
    pushOne d k v =
      (seqField d k).map (fun xs => dSet d k (.list (xs ++ [v]))) := by
  unfold pushOne seqField
  cases h : dGet d k with
  | none => rfl
  | some w => cases w <;> rfl

theorem seqField_congr (d d' : Doc) (k : String) (h : dGet d k = dGet d' k) :
    seqField d k = seqField d' k := by
  unfold seqField; rw [h]

theorem applyPush_spec (fields : List (String × Value)) (d : Doc)
    (hnd : (fields.map Prod.fst).Nodup)
    (hok : ∀ p ∈ fields, (seqField d p.1).isSome) :
    ∃ nd, applyPush d fields = some nd ∧
      (∀ p ∈ fields,
        dGet nd p.1 = some (.list ((seqField d p.1).getD [] ++ [p.2]))) ∧
      (∀ k, (∀ p ∈ fields, p.1 ≠ k) → dGet nd k = dGet d k) := by
  induction fields generalizing d with
  | nil => exact ⟨d, rfl, by simp, fun _ _ => rfl⟩
  | cons p fs ih =>
    obtain ⟨xs, hxs⟩ := Option.isSome_iff_exists.1
      (hok p (List.mem_cons_self _ _))
    have hstep : applyPush d (p :: fs) = applyPush (dSet d p.1 (.list (xs ++ [p.2]))) fs := by
      show (pushOne d p.1 p.2).bind _ = _
      rw [pushOne_eq, hxs]; rfl
    set d1 := dSet d p.1 (.list (xs ++ [p.2])) with hd1
    have hkeys : ∀ q ∈ fs, q.1 ≠ p.1 := by
      intro q hq hqp
      apply (List.nodup_cons.1 hnd).1
      rw [← hqp]
      exact List.mem_map_of_mem Prod.fst hq
    have hpres : ∀ q ∈ fs, dGet d1 q.1 = dGet d q.1 := by
      intro q hq
      exact dGet_dSet_ne _ _ _ _ fun hh => hkeys q hq hh.symm
    obtain ⟨nd, hnd1, hfs, hframe⟩ := ih d1 (List.nodup_cons.1 hnd).2
      (fun q hq => (seqField_congr d1 d q.1 (hpres q hq)) ▸ hok q (List.mem_cons_of_mem _ hq))
    refine ⟨nd, hstep ▸ hnd1, ?_, ?_⟩
    · intro q hq
      rcases List.mem_cons.1 hq with hh | ht
      · subst hh
        rw [hframe q.1 hkeys, hd1, dGet_dSet_self]
        simp [hxs]
      · rw [hfs q ht, seqField_congr d1 d q.1 (hpres q ht)]
    · intro k hk
      rw [hframe k (fun q hq => hk q (List.mem_cons_of_mem _ hq)),
        dGet_dSet_ne _ _ _ _ (hk p (List.mem_cons_self _ _))]

/-! Collection well-formedness: a store built by `insert_one`/`update_one`
keeps its Python-dict key uniqueness, and every stored document carries its
own key in `_id` (as `insert_one` establishes). -/

def collWF (c : MemoryCollection) : Prop :=
  (c.store.map Prod.fst).Nodup ∧
    ∀ p ∈ c.store, dGet p.2 "_id" = some (.str p.1)

theorem match_filter_id (d : Doc) (i : String) :
    match_filter d [("_id", .str i)] = decide (pyGet d "_id" = .str i) := by
  simp [match_filter, matchEntry]

theorem find_store_by_id (store : List (String × Doc)) (i : String)
    (hnd : (store.map Prod.fst).Nodup)
    (hid : ∀ p ∈ store, dGet p.2 "_id" = some (.str p.1)) :
    (store.map (fun p => p.2)).filter (fun d => match_filter d [("_id", .str i)]) =
      ((store.find? (fun p => p.1 == i)).map (fun p => [p.2])).getD [] := by
  induction store with
  | nil => rfl
  | cons p ps ih =>
    have hp := hid p (List.mem_cons_self _ _)
    have hpy : pyGet p.2 "_id" = .str p.1 := by simp [pyGet, hp]
    by_cases hpi : p.1 = i
    · have hmatch : match_filter p.2 [("_id", .str i)] = true := by
        rw [match_filter_id, hpy, hpi]; simp
      have hrest : ∀ q ∈ ps, match_filter q.2 [("_id", .str i)] = false := by
        intro q hq
        have hqi : q.1 ≠ i := by
          intro hh
          have hm : q.1 ∈ List.map Prod.fst ps := List.mem_map_of_mem Prod.fst hq
          rw [hh, ← hpi] at hm
          exact (List.nodup_cons.1 hnd).1 hm
        have hqy : pyGet q.2 "_id" = .str q.1 := by
          simp [pyGet, hid q (List.mem_cons_of_mem _ hq)]
        rw [match_filter_id, hqy]
        simp [hqi]
      have hfilter : (ps.map (fun p => p.2)).filter
          (fun d => match_filter d [("_id", .str i)]) = [] := by
        rw [List.filter_eq_nil_iff]
        intro d hd
        obtain ⟨q, hq, hqd⟩ := List.mem_map.1 hd
        rw [← hqd, hrest q hq]
        exact Bool.false_ne_true
      rw [List.map_cons, List.filter_cons, hmatch, if_pos rfl, hfilter,
        List.find?_cons_of_pos _ (by simp [hpi])]
      rfl
    · have hmatch : match_filter p.2 [("_id", .str i)] = false := by
        rw [match_filter_id, hpy]
        simp [hpi]
      have hih := ih (List.nodup_cons.1 hnd).2
        (fun q hq => hid q (List.mem_cons_of_mem _ hq))
      rw [List.map_cons, List.filter_cons, hmatch, if_neg Bool.false_ne_true,
        List.find?_cons_of_neg _ (by simp [hpi])]
      exact hih

theorem find_one_by_id (c : MemoryCollection) (i : String) (h : collWF c) :
    c.find_one [("_id", .str i)] =
      (c.store.find? (fun p => p.1 == i)).map (fun p => p.2) := by
  unfold MemoryCollection.find_one MemoryCollection.find
  rw [find_store_by_id c.store i h.1 h.2]
  cases c.store.find? (fun p => p.1 == i) <;> rfl

theorem store_entry_of_find_one (c : MemoryCollection) (i : String) (d : Doc)
    (h : collWF c) (hf : c.find_one [("_id", .str i)] = some d) :
    c.store.find? (fun p => p.1 == i) = some (i, d) ∧
      dGet d "_id" = some (.str i) := by
  rw [find_one_by_id c i h] at hf
  cases hfind : c.store.find? (fun p => p.1 == i) with
  | none => rw [hfind] at hf; cases hf
  | some p =>
    rw [hfind] at hf
    have hpd : p.2 = d := Option.some.inj hf
    have hkey : p.1 = i := by
      have hps := List.find?_some hfind
      exact of_decide_eq_true (by simpa using hps)
    have hmem : p ∈ c.store := List.mem_of_find?_eq_some hfind
    have hpid := h.2 p hmem
    constructor
    · rw [← hkey, ← hpd]
    · rw [← hpd, hpid, hkey]

/-- The collection after replacing the document stored under key `i`
(reassignment of an existing dict key: position kept). -/
def replaceStore (c : MemoryCollection) (i : String) (nd : Doc) : MemoryCollection :=
  { c with store := c.store.map (fun p => if p.1 == i then (p.1, nd) else p) }

theorem update_one_by_id (c : MemoryCollection) (i : String) (upd : Doc)
    (d : Doc) (h : collWF c) (hf : c.find_one [("_id", .str i)] = some d) :
    c.update_one [("_id", .str i)] upd =
      (applyUpdate d upd).map (fun nd => replaceStore c i nd) := by
  obtain ⟨hfind, hid⟩ := store_entry_of_find_one c i d h hf
  have hdne : d.isEmpty = false := by
    cases d with
    | nil => simp [dGet] at hid
    | cons q qs => rfl
  have hpy : pyGet d "_id" = .str i := by simp [pyGet, hid]
  unfold MemoryCollection.update_one replaceStore
  rw [hf]
  simp only [hdne, Bool.false_eq_true, if_false, hpy, hfind, Option.map_some]
  rfl

theorem collWF_replace (c : MemoryCollection) (i : String) (nd : Doc)
    (h : collWF c) (hnid : dGet nd "_id" = some (.str i)) :
    collWF (replaceStore c i nd) := by
  constructor
  · have hkeys : ((replaceStore c i nd).store).map Prod.fst
        = c.store.map Prod.fst := by
      unfold replaceStore
      rw [List.map_map]
      apply List.map_congr_left
      intro p _
      by_cases hpi : p.1 = i <;> simp [hpi]
    rw [hkeys]
    exact h.1
  · intro q hq
    obtain ⟨p, hp, hpq⟩ := List.mem_map.1 hq
    by_cases hpi : p.1 = i
    · rw [← hpq]
      simp only [hpi, beq_self_eq_true, if_true]
      rw [hnid]
    · rw [← hpq]
      rw [if_neg (by simp [hpi])]
      exact h.2 p hp

theorem find?_replace (store : List (String × Doc)) (i : String)
    (nd d : Doc) (hf : store.find? (fun p => p.1 == i) = some (i, d)) :
    (store.map (fun p => if p.1 == i then (p.1, nd) else p)).find?
      (fun p => p.1 == i) = some (i, nd) := by
  induction store with
  | nil => cases hf
  | cons p ps ih =>
    by_cases hpi : p.1 = i
    · rw [List.map_cons, if_pos (by simp [hpi] : (p.1 == i) = true)]
      rw [List.find?_cons_of_pos _ (by simp [hpi]), hpi]
    · have hf2 : List.find? (fun p => p.1 == i) ps = some (i, d) := by
        rw [← hf, List.find?_cons_of_neg _ (by simp [hpi])]
      rw [List.map_cons, if_neg (by simp [hpi]),
        List.find?_cons_of_neg _ (by simp [hpi])]
      exact ih hf2

theorem mem_replace_of_ne (store : List (String × Doc)) (i j : String)
    (nd d0 : Doc) (hmem : (j, d0) ∈ store) (hne : j ≠ i) :
    (j, d0) ∈ store.map (fun p => if p.1 == i then (p.1, nd) else p) := by
  have hfix : (fun p => if p.1 == i then (p.1, nd) else p) (j, d0) = (j, d0) := by
    simp [hne]
  rw [← hfix]
  exact List.mem_map_of_mem _ hmem

/-! `dbGet`/`dbSet` lemmas, via list-level helpers. -/

theorem find?_keyUpdate_self {β : Type} (l : List (String × β)) (n : String)
    (c : β) (hmem : l.any (fun p => p.1 == n) = true) :
    (l.map (fun p => if p.1 == n then (p.1, c) else p)).find?
      (fun p => p.1 == n) = some (n, c) := by
  induction l with
  | nil => cases hmem
  | cons p ps ih =>
    by_cases hpn : p.1 = n
    · rw [List.map_cons, if_pos (by simp [hpn] : (p.1 == n) = true)]
      rw [List.find?_cons_of_pos _ (by simp [hpn]), hpn]
    · rw [List.map_cons, if_neg (by simp [hpn]),
        List.find?_cons_of_neg _ (by simp [hpn])]
      rw [List.any_cons] at hmem
      rcases Bool.or_eq_true_iff.1 hmem with hh | ht
      · exact absurd (by simpa using hh) hpn
      · exact ih ht

theorem find?_keyUpdate_ne {β : Type} (l : List (String × β)) (n n' : String)
    (c : β) (h : n' ≠ n) :
    (l.map (fun p => if p.1 == n' then (p.1, c) else p)).find?
      (fun p => p.1 == n) = l.find? (fun p => p.1 == n) := by
  induction l with
  | nil => rfl
  | cons p ps ih =>
    by_cases hpn : p.1 = n'
    · rw [List.map_cons, if_pos (by simp [hpn] : (p.1 == n') = true)]
      rw [List.find?_cons_of_neg _ (by simp [hpn, h]),
        List.find?_cons_of_neg _ (by simp [hpn, h])]
      exact ih
    · rw [List.map_cons, if_neg (by simp [hpn])]
      by_cases hpn2 : p.1 = n
      · rw [List.find?_cons_of_pos _ (by simp [hpn2]),
          List.find?_cons_of_pos _ (by simp [hpn2])]
      · rw [List.find?_cons_of_neg _ (by simp [hpn2]),
          List.find?_cons_of_neg _ (by simp [hpn2])]
        exact ih

theorem dbGet_dbSet_self (db : MemoryDB) (n : String) (c : MemoryCollection) :
    dbGet (dbSet db n c) n = c := by
  unfold dbGet dbSet
  by_cases hmem : db.collections.any (fun p => p.1 == n)
  · rw [if_pos hmem]
    show ((List.find? (fun p => p.1 == n)
        (db.collections.map (fun p => if p.1 == n then (p.1, c) else p))).map
          (fun p => p.2)).getD ⟨n, [], 0⟩ = c
    rw [find?_keyUpdate_self db.collections n c hmem]
    rfl
  · rw [if_neg hmem]
    have hnone : db.collections.find? (fun p => p.1 == n) = none := by
      rw [List.find?_eq_none]
      intro p hp hpn
      exact hmem (List.any_eq_true.2 ⟨p, hp, hpn⟩)
    show ((List.find? (fun p => p.1 == n) (db.collections ++ [(n, c)])).map
        (fun p => p.2)).getD ⟨n, [], 0⟩ = c
    rw [List.find?_append, hnone]
    simp

theorem dbGet_dbSet_ne (db : MemoryDB) (n n' : String) (c : MemoryCollection)
    (h : n' ≠ n) : dbGet (dbSet db n' c) n = dbGet db n := by
  unfold dbGet dbSet
  by_cases hmem : db.collections.any (fun p => p.1 == n')
  · rw [if_pos hmem]
    show ((List.find? (fun p => p.1 == n)
        (db.collections.map (fun p => if p.1 == n' then (p.1, c) else p))).map
          (fun p => p.2)).getD ⟨n, [], 0⟩ =
      ((db.collections.find? (fun p => p.1 == n)).map (fun p => p.2)).getD ⟨n, [], 0⟩
    rw [find?_keyUpdate_ne db.collections n n' c h]
  · rw [if_neg hmem]
    show ((List.find? (fun p => p.1 == n) (db.collections ++ [(n', c)])).map
        (fun p => p.2)).getD ⟨n, [], 0⟩ =
      ((db.collections.find? (fun p => p.1 == n)).map (fun p => p.2)).getD ⟨n, [], 0⟩
    rw [List.find?_append]
    cases hfind : db.collections.find? (fun p => p.1 == n) with
    | some p => rfl
    | none =>
      simp only [Option.none_or]
      rw [List.find?_cons_of_neg _ (by simp [h]), List.find?_nil]

theorem applyPush_singleton (d : Doc) (k : String) (v : Value) :
    applyPush d [(k, v)] = pushOne d k v := by
  unfold applyPush
  cases h : pushOne d k v <;> simp [List.foldlM, h]

/-- The `$set`/`$push` update document written by `advance_lead`, applied to
a located lead whose `history` is a sequence (or absent). -/
theorem applyUpdate_advance (d : Doc) (ns st t : Value) (entry : Value)
    (hist : List Value) (hhist : seqField d "history" = some hist) :
    applyUpdate d
        [("$set", .doc [("current_step", ns), ("status", st), ("updated_at", t)]),
         ("$push", .doc [("history", entry)])] =
      some (dSet
        (applySet d [("current_step", ns), ("status", st), ("updated_at", t)])
        "history" (.list (hist ++ [entry]))) := by
  have hstep : applyUpdate d
      [("$set", .doc [("current_step", ns), ("status", st), ("updated_at", t)]),
       ("$push", .doc [("history", entry)])] =
      applyPush (applySet d [("current_step", ns), ("status", st), ("updated_at", t)])
        [("history", entry)] := rfl
  have hget : dGet (applySet d [("current_step", ns), ("status", st),
      ("updated_at", t)]) "history" = dGet d "history" := by
    apply dGet_applySet_not_mem
    intro p hp
    fin_cases hp <;> simp
  rw [hstep, applyPush_singleton, pushOne_eq,
    seqField_congr _ d "history" hget, hhist]
  rfl

/-- The lead document after a successful advance: the three `$set` fields
assigned, then the history entry appended. -/
def advanceNewLead (lead : Doc) (pid lead_id : String) (ns st : Value)
    (now : Nat) (hist : List Value) : Doc :=
  dSet (applySet lead
      [("current_step", ns), ("status", st), ("updated_at", .nat now)])
    "history"
    (.list (hist ++ [.doc (advanceEntry pid lead_id (pyGet lead "current_step") ns now)]))

/-- Locating a replaced document again: the re-read of `advance_lead`. -/
theorem replace_find_one (c : MemoryCollection) (i : String) (nd d : Doc)
    (hwf : collWF c)
    (hfind : c.store.find? (fun p => p.1 == i) = some (i, d))
    (hnid : dGet nd "_id" = some (.str i)) :
    (replaceStore c i nd).find_one [("_id", .str i)] = some nd := by
  rw [find_one_by_id _ i (collWF_replace c i nd hwf hnid)]
  show Option.map (fun p => p.2) (List.find? (fun p => p.1 == i)
    (c.store.map (fun p => if p.1 == i then (p.1, nd) else p))) = some nd
  rw [find?_replace _ i nd d hfind]
  rfl

/-- Characterization of a successful `advance_lead` call on a well-formed
lead store: the exact success value, naming the computed step, status and
replacement document. -/
theorem advance_lead_ok
    (db : MemoryDB) (lead_id : String) (to_step : Option String) (now : Nat)
    (lead project : Doc) (steps : List Value) (hist : List Value)
    (hwf : collWF (dbGet db "lead"))
    (hlead : (dbGet db "lead").find_one [("_id", .str lead_id)] = some lead)
    (hproj : project_lookup db lead = some project)
    (hsteps : stepsOf project = some steps)
    (hne : steps ≠ [])
    (hhist : seqField lead "history" = some hist) :
    ∃ ns st newLead,
      ns = compute_new_step steps (pyGet lead "current_step") to_step ∧
      st = compute_status steps ((dGet lead "status").getD (.str "active")) ns ∧
      newLead = advanceNewLead lead (pyToString (pyGet project "_id")) lead_id
        ns st now hist ∧
      advance_lead db lead_id to_step now =
        .ok (dbSet db "lead" (replaceStore (dbGet db "lead") lead_id newLead),
          [⟨pyToString (pyGet project "_id"),
            [("type", .str "lead_advanced"), ("lead_id", .str lead_id),
             ("from", pyGet lead "current_step"), ("to", ns)]⟩],
          dSet (dRemove newLead "_id") "id" (.str lead_id)) := by
  obtain ⟨hfind, hid⟩ := store_entry_of_find_one _ lead_id lead hwf hlead
  have hnemp : steps.isEmpty = false := by
    cases steps with
    | nil => exact absurd rfl hne
    | cons a l => rfl
  refine ⟨_, _, _, rfl, rfl, rfl, ?_⟩
  have hnid2 : dGet (advanceNewLead lead (pyToString (pyGet project "_id"))
      lead_id (compute_new_step steps (pyGet lead "current_step") to_step)
      (compute_status steps ((dGet lead "status").getD (.str "active"))
        (compute_new_step steps (pyGet lead "current_step") to_step))
      now hist) "_id" = some (.str lead_id) := by
    unfold advanceNewLead
    rw [dGet_dSet_ne _ _ _ _ (by decide)]
    rw [dGet_applySet_not_mem _ _ _ ?hnm]
    · exact hid
    case hnm =>
      intro p hp
      fin_cases hp <;> simp
  have hupd2 : (dbGet db "lead").update_one [("_id", .str lead_id)]
      [("$set", .doc [("current_step",
          compute_new_step steps (pyGet lead "current_step") to_step),
        ("status", compute_status steps ((dGet lead "status").getD (.str "active"))
          (compute_new_step steps (pyGet lead "current_step") to_step)),
        ("updated_at", .nat now)]),
       ("$push", .doc [("history", .doc (advanceEntry
         (pyToString (pyGet project "_id")) lead_id (pyGet lead "current_step")
         (compute_new_step steps (pyGet lead "current_step") to_step) now))])] =
      some (replaceStore (dbGet db "lead") lead_id
        (advanceNewLead lead (pyToString (pyGet project "_id")) lead_id
          (compute_new_step steps (pyGet lead "current_step") to_step)
          (compute_status steps ((dGet lead "status").getD (.str "active"))
            (compute_new_step steps (pyGet lead "current_step") to_step))
          now hist)) := by
    rw [update_one_by_id _ lead_id _ lead hwf hlead,
      applyUpdate_advance lead _ _ _ _ hist hhist]
    rfl
  have hreread2 := replace_find_one (dbGet db "lead") lead_id
    (advanceNewLead lead (pyToString (pyGet project "_id")) lead_id
      (compute_new_step steps (pyGet lead "current_step") to_step)
      (compute_status steps ((dGet lead "status").getD (.str "active"))
        (compute_new_step steps (pyGet lead "current_step") to_step))
      now hist) lead hwf hfind hnid2
  simp only [advance_lead, hlead, hproj, hsteps, hnemp, Bool.false_eq_true,
    if_false, hupd2, dbGet_dbSet_self, hreread2, hnid2]
  rfl

/-! Claim C10: `get_documents` truncation. -/

/-- C10: `get_documents(collection_name, filter, limit)` truncates its
result to the first `limit` entries only when `limit` is truthy: with
`limit = 0` it returns all matching documents (the same as with no limit),
because `if limit:` treats `0` like an absent limit; a positive limit takes
a prefix. -/
theorem C10_limit_zero_returns_all (db : MemoryDB) (name : String)
    (filter_dict : Option Doc) :
    get_documents db name filter_dict (some 0) =
        (dbGet db name).find (filter_dict.getD []) ∧
    get_documents db name filter_dict none =
        (dbGet db name).find (filter_dict.getD []) ∧
    ∀ n : Int, 0 < n →
      get_documents db name filter_dict (some n) =
        ((dbGet db name).find (filter_dict.getD [])).take n.toNat := by
  refine ⟨rfl, rfl, ?_⟩
  intro n hn
  have h1 : (n != 0) = true := by
    simp only [bne_iff_ne, ne_eq]
    omega
  have h2 : (0 : Int) ≤ n := Int.le_of_lt hn
  simp [get_documents, pySliceTo, h1, h2]

/-- C10 witness: a one-document store; limit 0 keeps the document, limit 2
takes a (full) prefix. -/
theorem C10_limit_zero_returns_all_witness :
    get_documents ⟨[("lead", ⟨"lead", [("mem_lead_1", [("x", .nat 1)])], 1⟩)]⟩
        "lead" none (some 0) =
      (dbGet ⟨[("lead", ⟨"lead", [("mem_lead_1", [("x", .nat 1)])], 1⟩)]⟩
        "lead").find [] ∧
    (0 : Int) < 2 ∧
    get_documents ⟨[("lead", ⟨"lead", [("mem_lead_1", [("x", .nat 1)])], 1⟩)]⟩
        "lead" none (some 2) =
      ((dbGet ⟨[("lead", ⟨"lead", [("mem_lead_1", [("x", .nat 1)])], 1⟩)]⟩
        "lead").find []).take 2 :=
  ⟨(C10_limit_zero_returns_all _ "lead" none).1, by decide,
    (C10_limit_zero_returns_all _ "lead" none).2.2 2 (by decide)⟩

/-! Claim C7: advancing against a project with empty `steps`. -/

/-- A project document whose `steps` sequence is empty. -/
def emptyStepsProject : Doc :=
  [("_id", .str "p1"), ("name", .str "Demo"), ("steps", .list [])]

/-- A lead attached to `emptyStepsProject`. -/
def emptyStepsLead : Doc :=
  [("_id", .str "l1"), ("project_id", .str "p1"),
   ("current_step", .str "X"), ("status", .str "active"),
   ("history", .list [])]

/-- The database holding them. -/
def emptyStepsDb : MemoryDB :=
  ⟨[("lead", ⟨"lead", [("l1", emptyStepsLead)], 1⟩),
    ("project", ⟨"project", [("p1", emptyStepsProject)], 1⟩)]⟩

/-- C7: on a project with empty `steps` the new-step computation does yield
the unchanged `current_step` (first half of the claim), but the advance
operation then evaluates `steps[-1]` on the empty sequence and raises an
unhandled `IndexError` instead of completing: the write never happens and
the request fails. -/
theorem C7_empty_steps_index_error :
    compute_new_step [] (.str "X") none = .str "X" ∧
    advance_lead emptyStepsDb "l1" none 0 = .error .indexError := by
  constructor
  · rfl
  · rfl

/-! Claim C8: NotFound / InvalidReference abort the advance. -/

/-- C8: `advance_lead` fails with the 404 error when the lead id resolves
to no lead, and with the 400 error when the lead's project cannot be
resolved. In this state-threading embedding an error return is returned
before any store write or broadcast: the caller keeps the unchanged
database and no event is emitted (the `Except.error` carries neither). -/
theorem C8_advance_errors (db : MemoryDB) (lead_id : String)
    (to_step : Option String) (now : Nat) :
    ((dbGet db "lead").find_one [("_id", .str lead_id)] = none →
      advance_lead db lead_id to_step now = .error .leadNotFound) ∧
    (∀ lead, (dbGet db "lead").find_one [("_id", .str lead_id)] = some lead →
      project_lookup db lead = none →
      advance_lead db lead_id to_step now = .error .projectNotFound) := by
  constructor
  · intro h
    simp [advance_lead, h]
  · intro lead hlead hproj
    simp [advance_lead, hlead, hproj]

/-- C8 witness: an empty store has no lead `l1` (404); a store holding only
the lead cannot resolve its project (400). -/
theorem C8_advance_errors_witness :
    ((dbGet ⟨[]⟩ "lead").find_one [("_id", .str "l1")] = none ∧
      advance_lead ⟨[]⟩ "l1" none 0 = .error .leadNotFound) ∧
    ((dbGet ⟨[("lead", ⟨"lead", [("l1", emptyStepsLead)], 1⟩)]⟩ "lead").find_one
        [("_id", .str "l1")] = some emptyStepsLead ∧
      project_lookup ⟨[("lead", ⟨"lead", [("l1", emptyStepsLead)], 1⟩)]⟩
        emptyStepsLead = none ∧
      advance_lead ⟨[("lead", ⟨"lead", [("l1", emptyStepsLead)], 1⟩)]⟩
        "l1" none 0 = .error .projectNotFound) := by
  refine ⟨⟨by rfl, (C8_advance_errors ⟨[]⟩ "l1" none 0).1 (by rfl)⟩,
    ⟨by rfl, by rfl, (C8_advance_errors _ "l1" none 0).2 emptyStepsLead
      (by rfl) (by rfl)⟩⟩

/-! Claim C1: the new-step computation of the advance endpoint. -/

theorem getD_eq_getElem_of_lt (steps : List Value) (i : Nat)
    (h : i < steps.length) : steps.getD i .null = steps[i] := by
  simp [List.getD_eq_getElem?_getD, List.getElem?_eq_getElem h]

theorem compute_new_step_found (steps : List Value) (current : Value)
    (to_step : Option String)
    (hns : ∀ s, to_step = some s → s = "" ∨ Value.str s ∉ steps)
    (hlt : steps.indexOf current < steps.length) :
    compute_new_step steps current to_step =
      steps.getD (min (steps.indexOf current + 1) (steps.length - 1)) .null := by
  unfold compute_new_step
  cases to_step with
  | none => simp [hlt]
  | some s =>
    rcases hns s rfl with h | h
    · subst h
      have hcond : (!String.isEmpty "" && decide (Value.str "" ∈ steps)) = false := by
        rw [show String.isEmpty "" = true from rfl]
        simp
      simp [hlt, hcond]
    · simp [hlt, h]

theorem compute_new_step_not_found (steps : List Value) (current : Value)
    (to_step : Option String)
    (hns : ∀ s, to_step = some s → s = "" ∨ Value.str s ∉ steps)
    (hge : ¬ steps.indexOf current < steps.length) (hne : steps ≠ []) :
    compute_new_step steps current to_step = steps.getD 0 .null := by
  have hemp : steps.isEmpty = false := by
    cases steps with
    | nil => exact absurd rfl hne
    | cons a l => rfl
  unfold compute_new_step
  cases to_step with
  | none => simp [hge, hemp]
  | some s =>
    rcases hns s rfl with h | h
    · subst h
      have hcond : (!String.isEmpty "" && decide (Value.str "" ∈ steps)) = false := by
        rw [show String.isEmpty "" = true from rfl]
        simp
      simp [hge, hemp, hcond]
    · simp [hge, hemp, h]

theorem compute_new_step_taken (steps : List Value) (current : Value)
    (s : String) (hs : s ≠ "") (hmem : Value.str s ∈ steps) :
    compute_new_step steps current (some s) = .str s := by
  have hse : s.isEmpty = false := by
    cases hh : s.isEmpty
    · rfl
    · exact absurd ((String.isEmpty_iff s).1 hh) hs
  unfold compute_new_step
  simp [hse, hmem]

/-- C1 counterexample: a `requestedStep` that is provided and IS a member
of `project.steps` — the empty string — is not taken: `payload.to_step and
payload.to_step in steps` treats the empty string as falsy, so the code
advances along the fallback rule (here, from the last step A back onto
itself) instead of moving to the requested member `""`. -/
theorem C1_empty_string_request_counterexample :
    Value.str "" ∈ [Value.str "", Value.str "A"] ∧
    compute_new_step [Value.str "", Value.str "A"] (.str "A") (some "") ≠
      .str "" := by
  decide

/-- C1 (amended): for a non-empty `steps`, a provided, non-empty
`requestedStep` that is a member of `steps` becomes the new step; a
requested step that is empty or not a member falls back to the no-target
rule; with no usable target the new step is the element immediately after
`current_step`'s first index, the current (= last) element when that index
is the last one, and `steps[0]` when `current_step` does not occur. -/
theorem C1_new_step_spec (steps : List Value) (current : Value)
    (hne : steps ≠ []) :
    (∀ s : String, s ≠ "" → Value.str s ∈ steps →
      compute_new_step steps current (some s) = .str s) ∧
    (∀ s : String, s = "" ∨ Value.str s ∉ steps →
      compute_new_step steps current (some s) =
        compute_new_step steps current none) ∧
    (current ∈ steps → steps.indexOf current + 1 < steps.length →
      compute_new_step steps current none =
        steps.getD (steps.indexOf current + 1) .null) ∧
    (current ∈ steps → steps.indexOf current = steps.length - 1 →
      compute_new_step steps current none = current) ∧
    (current ∉ steps → compute_new_step steps current none =
      steps.getD 0 .null) := by
  refine ⟨fun s hs hmem => compute_new_step_taken steps current s hs hmem,
    ?_, ?_, ?_, ?_⟩
  · intro s hcase
    by_cases hlt : steps.indexOf current < steps.length
    · rw [compute_new_step_found steps current (some s)
          (fun t ht => by cases ht; exact hcase) hlt,
        compute_new_step_found steps current none (fun t ht => by cases ht) hlt]
    · rw [compute_new_step_not_found steps current (some s)
          (fun t ht => by cases ht; exact hcase) hlt hne,
        compute_new_step_not_found steps current none (fun t ht => by cases ht)
          hlt hne]
  · intro hmem hlt1
    have hlt : steps.indexOf current < steps.length :=
      List.indexOf_lt_length.2 hmem
    rw [compute_new_step_found steps current none (fun t ht => by cases ht) hlt]
    congr 1
    omega
  · intro hmem hlast
    have hlt : steps.indexOf current < steps.length :=
      List.indexOf_lt_length.2 hmem
    rw [compute_new_step_found steps current none (fun t ht => by cases ht) hlt]
    have hm : min (steps.indexOf current + 1) (steps.length - 1) =
        steps.indexOf current := by omega
    rw [hm, getD_eq_getElem_of_lt steps _ hlt]
    exact List.getElem_indexOf hlt
  · intro hmem
    have hge : ¬ steps.indexOf current < steps.length := by
      rw [List.indexOf_eq_length.2 hmem]
      omega
    exact compute_new_step_not_found steps current none (fun t ht => by cases ht)
      hge hne

/-- C1 witness: steps `[A, B, C]` exercising every branch of the amended
statement. -/
theorem C1_new_step_spec_witness :
    ([Value.str "A", Value.str "B", Value.str "C"] ≠ ([] : List Value)) ∧
    compute_new_step [Value.str "A", Value.str "B", Value.str "C"]
      (.str "A") (some "C") = .str "C" ∧
    compute_new_step [Value.str "A", Value.str "B", Value.str "C"]
        (.str "A") (some "Z") =
      compute_new_step [Value.str "A", Value.str "B", Value.str "C"]
        (.str "A") none ∧
    compute_new_step [Value.str "A", Value.str "B", Value.str "C"]
        (.str "A") none =
      [Value.str "A", Value.str "B", Value.str "C"].getD
        ([Value.str "A", Value.str "B", Value.str "C"].indexOf (.str "A") + 1)
        .null ∧
    compute_new_step [Value.str "A", Value.str "B", Value.str "C"]
      (.str "C") none = .str "C" ∧
    compute_new_step [Value.str "A", Value.str "B", Value.str "C"]
        (.str "Z") none =
      [Value.str "A", Value.str "B", Value.str "C"].getD 0 .null :=
  ⟨by decide,
    (C1_new_step_spec _ (.str "A") (by decide)).1 "C" (by decide) (by decide),
    (C1_new_step_spec _ (.str "A") (by decide)).2.1 "Z" (Or.inr (by decide)),
    (C1_new_step_spec _ (.str "A") (by decide)).2.2.1 (by decide) (by decide),
    (C1_new_step_spec _ (.str "C") (by decide)).2.2.2.1 (by decide) (by decide),
    (C1_new_step_spec _ (.str "Z") (by decide)).2.2.2.2 (by decide)⟩

/-! Claim C2: the won-status invariant. -/

/-- The §3 invariant of the spec, as a decidable predicate on the
`(current_step, status)` pair of a lead against its project's steps:
status is `"won"` exactly when `current_step` is the last element. -/
def wonInvariant (steps : List Value) (current status : Value) : Bool :=
  decide ((status = Value.str "won") ↔
    (current = steps.getD (steps.length - 1) .null))

/-- C2 counterexample: a lead at the last step of `[A, B]` with status
`"won"` satisfies the invariant; advancing it with the explicit requested
step `A` moves `current_step` back to `A` while the status computation
leaves status `"won"` (it never downgrades), so the invariant is false
after the advance. -/
theorem C2_backward_move_counterexample :
    wonInvariant [Value.str "A", Value.str "B"] (.str "B") (.str "won") = true ∧
    compute_new_step [Value.str "A", Value.str "B"] (.str "B") (some "A") =
      .str "A" ∧
    compute_status [Value.str "A", Value.str "B"] (.str "won") (.str "A") =
      .str "won" ∧
    wonInvariant [Value.str "A", Value.str "B"] (.str "A") (.str "won") =
      false := by
  decide

/-- C2 (amended): the invariant is preserved by every advance that carries
no explicit requested step (and, by the same status rule, by any advance
whose new step is the last element); an explicit requested step moving a
won lead backward breaks it, as the counterexample shows. Stated for a
project with distinct step names, as §3 requires. -/
theorem C2_invariant_preserved_default (steps : List Value)
    (current status : Value) (hne : steps ≠ []) (hnd : steps.Nodup)
    (hinv : wonInvariant steps current status = true) :
    wonInvariant steps (compute_new_step steps current none)
      (compute_status steps status (compute_new_step steps current none)) =
      true := by
  have hn : 0 < steps.length := List.length_pos.2 hne
  rw [wonInvariant, decide_eq_true_eq] at hinv ⊢
  have hlastlt : steps.length - 1 < steps.length := by omega
  by_cases hmem : current ∈ steps
  · have hlt : steps.indexOf current < steps.length :=
      List.indexOf_lt_length.2 hmem
    have hget : steps.getD (steps.indexOf current) .null = current := by
      rw [getD_eq_getElem_of_lt steps _ hlt]
      exact List.getElem_indexOf hlt
    have hnew := compute_new_step_found steps current none
      (fun t ht => by cases ht) hlt
    by_cases hlast : steps.indexOf current = steps.length - 1
    · have hmin : min (steps.indexOf current + 1) (steps.length - 1) =
          steps.indexOf current := by omega
      rw [hnew, hmin, hget]
      have hcl : current = steps.getD (steps.length - 1) .null := by
        rw [← hlast]
        exact hget.symm
      unfold compute_status
      rw [if_pos hcl]
      exact ⟨fun _ => hcl, fun _ => rfl⟩
    · have hmin : min (steps.indexOf current + 1) (steps.length - 1) =
          steps.indexOf current + 1 := by omega
      rw [hnew, hmin]
      by_cases hhit : steps.indexOf current + 1 = steps.length - 1
      · rw [hhit]
        unfold compute_status
        rw [if_pos rfl]
        exact ⟨fun _ => rfl, fun _ => rfl⟩
      · have hidx1 : steps.indexOf current + 1 < steps.length - 1 := by omega
        have hne1 : steps.getD (steps.indexOf current + 1) .null ≠
            steps.getD (steps.length - 1) .null := by
          rw [getD_eq_getElem_of_lt steps _ (by omega),
            getD_eq_getElem_of_lt steps _ hlastlt]
          intro hh
          have := (List.Nodup.getElem_inj_iff hnd).1 hh
          omega
        have hcne : current ≠ steps.getD (steps.length - 1) .null := by
          rw [← hget, getD_eq_getElem_of_lt steps _ hlt,
            getD_eq_getElem_of_lt steps _ hlastlt]
          intro hh
          have := (List.Nodup.getElem_inj_iff hnd).1 hh
          omega
        have hsne : status ≠ .str "won" := fun hs => hcne (hinv.1 hs)
        unfold compute_status
        rw [if_neg hne1]
        exact ⟨fun hs => absurd hs hsne, fun hc => absurd hc hne1⟩
  · have hge : ¬ steps.indexOf current < steps.length := by
      rw [List.indexOf_eq_length.2 hmem]
      omega
    have hnew := compute_new_step_not_found steps current none
      (fun t ht => by cases ht) hge hne
    have hlastmem : steps.getD (steps.length - 1) .null ∈ steps := by
      rw [getD_eq_getElem_of_lt steps _ hlastlt]
      exact List.getElem_mem hlastlt
    have hcne : current ≠ steps.getD (steps.length - 1) .null := by
      intro hh
      exact hmem (hh ▸ hlastmem)
    have hsne : status ≠ .str "won" := fun hs => hcne (hinv.1 hs)
    rw [hnew]
    by_cases h1 : steps.length = 1
    · have h0 : (0 : Nat) = steps.length - 1 := by omega
      rw [h0]
      unfold compute_status
      rw [if_pos rfl]
      exact ⟨fun _ => rfl, fun _ => rfl⟩
    · have hne0 : steps.getD 0 .null ≠ steps.getD (steps.length - 1) .null := by
        rw [getD_eq_getElem_of_lt steps _ hn, getD_eq_getElem_of_lt steps _ hlastlt]
        intro hh
        have := (List.Nodup.getElem_inj_iff hnd).1 hh
        omega
      unfold compute_status
      rw [if_neg hne0]
      exact ⟨fun hs => absurd hs hsne, fun hc => absurd hc hne0⟩

/-- C2 witness: steps `[A, B]`, a lead at `A` with status `"active"`; the
default advance moves it to the last step `B` and status becomes `"won"`,
preserving the invariant. -/
theorem C2_invariant_preserved_default_witness :
    ([Value.str "A", Value.str "B"] ≠ ([] : List Value)) ∧
    ([Value.str "A", Value.str "B"] : List Value).Nodup ∧
    wonInvariant [Value.str "A", Value.str "B"] (.str "A") (.str "active") =
      true ∧
    wonInvariant [Value.str "A", Value.str "B"]
      (compute_new_step [Value.str "A", Value.str "B"] (.str "A") none)
      (compute_status [Value.str "A", Value.str "B"] (.str "active")
        (compute_new_step [Value.str "A", Value.str "B"] (.str "A") none)) =
      true :=
  ⟨by decide, by decide, by decide,
    C2_invariant_preserved_default [Value.str "A", Value.str "B"]
      (.str "A") (.str "active") (by decide) (by decide) (by decide)⟩

/-! Claim C4: find/find_one filter semantics. -/

/-- The candidate list of a `\x7b"$in": candidates\x7d` filter value, when the
value has that shape. -/
def inCandidates : Value → Option (List Value)
  | .doc fields =>
    match dGet fields "$in" with
    | some (.list cands) => some cands
    | _ => none
  | _ => none

/-- The shape the claim quantifies over: each filter value is either a
literal, or a membership test whose candidates form a sequence. -/
def filterShapeOK : Value → Prop
  | .doc fields =>
    match dGet fields "$in" with
    | some (.list _) => True
    | some _ => False
    | none => True
  | _ => True

/-- Spec-side field match, written from the spec's words (§4.1/§8): a
literal-filtered field must be present and equal to the filter value — a
document missing the field is non-matching unless the filter value is the
explicit missing value (`None`); an `$in`-filtered field's value (the
missing value when absent) must be a member of the candidates. -/
def specFieldMatch (d : Doc) (k : String) (v : Value) : Bool :=
  match inCandidates v with
  | some cands =>
    match dGet d k with
    | some w => decide (w ∈ cands)
    | none => decide (Value.null ∈ cands)
  | none =>
    match dGet d k with
    | some w => decide (w = v)
    | none => decide (v = .null)

theorem matchEntry_eq_spec (d : Doc) (k : String) (v : Value)
    (hs : filterShapeOK v) : matchEntry d k v = specFieldMatch d k v := by
  cases v with
  | doc fields =>
    unfold filterShapeOK at hs
    cases hin : dGet fields "$in" with
    | none =>
      simp only [matchEntry, specFieldMatch, inCandidates, hin]
      cases hd : dGet d k with
      | none => simp [pyGet, hd, eq_comm]
      | some w => simp [pyGet, hd]
    | some w =>
      cases w with
      | list cands =>
        simp only [matchEntry, specFieldMatch, inCandidates, hin]
        cases hd : dGet d k with
        | none => simp [pyGet, hd]
        | some u => simp [pyGet, hd]
      | null => simp only [hin] at hs
      | str s => simp only [hin] at hs
      | nat n => simp only [hin] at hs
      | bool b => simp only [hin] at hs
      | doc fs => simp only [hin] at hs
  | null =>
    simp only [matchEntry, specFieldMatch, inCandidates]
    cases hd : dGet d k with
    | none => simp [pyGet, hd, eq_comm]
    | some w => simp [pyGet, hd]
  | str s =>
    simp only [matchEntry, specFieldMatch, inCandidates]
    cases hd : dGet d k with
    | none => simp [pyGet, hd, eq_comm]
    | some w => simp [pyGet, hd]
  | nat n =>
    simp only [matchEntry, specFieldMatch, inCandidates]
    cases hd : dGet d k with
    | none => simp [pyGet, hd, eq_comm]
    | some w => simp [pyGet, hd]
  | bool b =>
    simp only [matchEntry, specFieldMatch, inCandidates]
    cases hd : dGet d k with
    | none => simp [pyGet, hd, eq_comm]
    | some w => simp [pyGet, hd]
  | list xs =>
    simp only [matchEntry, specFieldMatch, inCandidates]
    cases hd : dGet d k with
    | none => simp [pyGet, hd, eq_comm]
    | some w => simp [pyGet, hd]

theorem all_congr_list {A : Type} (l : List A) (f g : A → Bool)
    (h : ∀ a ∈ l, f a = g a) : l.all f = l.all g := by
  induction l with
  | nil => rfl
  | cons a as ih =>
    simp only [List.all_cons, h a (List.mem_cons_self _ _),
      ih (fun b hb => h b (List.mem_cons_of_mem _ hb))]

/-- C4: for every collection state and every filter whose values are
literals or `$in`-sequences, `find` returns exactly the stored documents
(in store order) satisfying the spec-side match on every filter entry, and
`find_one` returns the first of them. -/
theorem C4_find_matches_spec (c : MemoryCollection) (filt : Doc)
    (hshape : ∀ p ∈ filt, filterShapeOK p.2) :
    c.find filt = (c.store.map (fun p => p.2)).filter
      (fun d => filt.all (fun p => specFieldMatch d p.1 p.2)) ∧
    c.find_one filt = ((c.store.map (fun p => p.2)).filter
      (fun d => filt.all (fun p => specFieldMatch d p.1 p.2))).head? := by
  have hpt : ∀ d : Doc, match_filter d filt =
      filt.all (fun p => specFieldMatch d p.1 p.2) := by
    intro d
    unfold match_filter
    apply all_congr_list
    intro p hp
    exact matchEntry_eq_spec d p.1 p.2 (hshape p hp)
  constructor
  · unfold MemoryCollection.find
    apply List.filter_congr
    intro d _
    exact hpt d
  · unfold MemoryCollection.find_one MemoryCollection.find
    rw [List.filter_congr (fun d _ => hpt d)]

/-- C4 witness: a three-document store, a filter combining a literal, an
`$in` membership test, and an explicit-missing (`None`) literal. -/
theorem C4_find_matches_spec_witness :
    (∀ p ∈ ([("a", Value.nat 1),
        ("b", Value.doc [("$in", Value.list [Value.nat 2, Value.nat 3])]),
        ("c", Value.null)] : Doc), filterShapeOK p.2) ∧
    (MemoryCollection.mk "t"
        [("i1", [("_id", .str "i1"), ("a", .nat 1), ("b", .nat 2)]),
         ("i2", [("_id", .str "i2"), ("a", .nat 1), ("b", .nat 9)]),
         ("i3", [("_id", .str "i3"), ("a", .nat 0), ("b", .nat 3)])] 3).find
        [("a", Value.nat 1),
         ("b", Value.doc [("$in", Value.list [Value.nat 2, Value.nat 3])]),
         ("c", Value.null)] =
      ((MemoryCollection.mk "t"
        [("i1", [("_id", .str "i1"), ("a", .nat 1), ("b", .nat 2)]),
         ("i2", [("_id", .str "i2"), ("a", .nat 1), ("b", .nat 9)]),
         ("i3", [("_id", .str "i3"), ("a", .nat 0), ("b", .nat 3)])]
        3).store.map (fun p => p.2)).filter
        (fun d => ([("a", Value.nat 1),
          ("b", Value.doc [("$in", Value.list [Value.nat 2, Value.nat 3])]),
          ("c", Value.null)] : Doc).all
            (fun p => specFieldMatch d p.1 p.2)) ∧
    (MemoryCollection.mk "t"
        [("i1", [("_id", .str "i1"), ("a", .nat 1), ("b", .nat 2)]),
         ("i2", [("_id", .str "i2"), ("a", .nat 1), ("b", .nat 9)]),
         ("i3", [("_id", .str "i3"), ("a", .nat 0), ("b", .nat 3)])] 3).find
        [("a", Value.nat 1),
         ("b", Value.doc [("$in", Value.list [Value.nat 2, Value.nat 3])]),
         ("c", Value.null)] =
      [[("_id", .str "i1"), ("a", .nat 1), ("b", .nat 2)]] := by
  refine ⟨?_, ?_, ?_⟩
  · intro p hp
    simp only [List.mem_cons, List.not_mem_nil, or_false] at hp
    rcases hp with rfl | rfl | rfl <;> simp [filterShapeOK, dGet]
  · exact (C4_find_matches_spec _ _ (by
      intro p hp
      simp only [List.mem_cons, List.not_mem_nil, or_false] at hp
      rcases hp with rfl | rfl | rfl <;> simp [filterShapeOK, dGet])).1
  · decide

/-! Claim C5: `update_one` applies `$set` and `$push` together. -/

theorem find_one_mem (c : MemoryCollection) (filt : Doc) (d : Doc)
    (h : c.find_one filt = some d) :
    match_filter d filt = true ∧ ∃ i, (i, d) ∈ c.store := by
  unfold MemoryCollection.find_one MemoryCollection.find at h
  obtain ⟨ys, hys⟩ := List.head?_eq_some_iff.1 h
  have hmem : d ∈ (c.store.map (fun p => p.2)).filter
      (fun x => match_filter x filt) := by
    rw [hys]
    exact List.mem_cons_self _ _
  obtain ⟨hmem2, hpred⟩ := List.mem_filter.1 hmem
  obtain ⟨p, hp, hpd⟩ := List.mem_map.1 hmem2
  exact ⟨hpred, p.1, by rw [show (p.1, d) = p from by rw [← hpd]]; exact hp⟩

theorem find?_of_mem_nodupKeys (store : List (String × Doc)) (i : String)
    (d : Doc) (hnd : (store.map Prod.fst).Nodup) (hmem : (i, d) ∈ store) :
    store.find? (fun p => p.1 == i) = some (i, d) := by
  induction store with
  | nil => cases hmem
  | cons p ps ih =>
    rcases List.mem_cons.1 hmem with rfl | ht
    · exact List.find?_cons_of_pos _ (by simp)
    · have hpi : p.1 ≠ i := by
        intro hh
        apply (List.nodup_cons.1 hnd).1
        rw [hh]
        exact List.mem_map_of_mem Prod.fst ht
      rw [List.find?_cons_of_neg _ (by simp [hpi])]
      exact ih (List.nodup_cons.1 hnd).2 ht

theorem applyUpdate_generic (d : Doc) (sets pushes : List (String × Value))
    (hsnd : (sets.map Prod.fst).Nodup)
    (hpnd : (pushes.map Prod.fst).Nodup)
    (hdisj : ∀ p ∈ pushes, ∀ q ∈ sets, p.1 ≠ q.1)
    (hok : ∀ p ∈ pushes, (seqField d p.1).isSome) :
    ∃ nd, applyUpdate d [("$set", .doc sets), ("$push", .doc pushes)] = some nd ∧
      (∀ p ∈ sets, dGet nd p.1 = some p.2) ∧
      (∀ p ∈ pushes, dGet nd p.1 =
        some (.list ((seqField d p.1).getD [] ++ [p.2]))) ∧
      (∀ k, (∀ p ∈ sets, p.1 ≠ k) → (∀ p ∈ pushes, p.1 ≠ k) →
        dGet nd k = dGet d k) := by
  have hstep : applyUpdate d [("$set", .doc sets), ("$push", .doc pushes)] =
      applyPush (applySet d sets) pushes := rfl
  have hsetsafe : ∀ p ∈ pushes,
      dGet (applySet d sets) p.1 = dGet d p.1 := fun p hp =>
    dGet_applySet_not_mem sets d p.1 (fun q hq => (hdisj p hp q hq).symm)
  have hok2 : ∀ p ∈ pushes, (seqField (applySet d sets) p.1).isSome := by
    intro p hp
    rw [seqField_congr _ d _ (hsetsafe p hp)]
    exact hok p hp
  obtain ⟨nd, h1, h2, h3⟩ := applyPush_spec pushes (applySet d sets) hpnd hok2
  refine ⟨nd, hstep ▸ h1, ?_, ?_, ?_⟩
  · intro p hp
    rw [h3 p.1 (fun q hq => hdisj q hq p hp)]
    exact dGet_applySet_mem sets d p.1 p.2 hsnd hp
  · intro p hp
    rw [h2 p hp, seqField_congr _ d _ (hsetsafe p hp)]
  · intro k hks hkp
    rw [h3 k hkp]
    exact dGet_applySet_not_mem sets d k hks

/-- C5: a single `update_one` carrying both a `$set` and a `$push` operator
locates the first filter match (a no-op on the store when none matches, and
when a match exists the id-keyed store entry of that same document), and
writes back one document carrying every `$set` field overwritten and every
`$push` field appended (an absent field becoming a one-element sequence);
all other fields and all other documents are untouched — no document is
left with only one of the two operator sets applied. -/
theorem C5_update_one_both_operators (c : MemoryCollection) (filt : Doc)
    (sets pushes : List (String × Value))
    (hwf : collWF c)
    (hsnd : (sets.map Prod.fst).Nodup)
    (hpnd : (pushes.map Prod.fst).Nodup)
    (hdisj : ∀ p ∈ pushes, ∀ q ∈ sets, p.1 ≠ q.1) :
    (c.find_one filt = none →
      c.update_one filt [("$set", .doc sets), ("$push", .doc pushes)] =
        some c) ∧
    (∀ d, c.find_one filt = some d →
      (∀ p ∈ pushes, (seqField d p.1).isSome) →
      ∃ i nd,
        dGet d "_id" = some (.str i) ∧ (i, d) ∈ c.store ∧
        c.update_one filt [("$set", .doc sets), ("$push", .doc pushes)] =
          some (replaceStore c i nd) ∧
        (∀ p ∈ sets, dGet nd p.1 = some p.2) ∧
        (∀ p ∈ pushes, dGet nd p.1 =
          some (.list ((seqField d p.1).getD [] ++ [p.2]))) ∧
        (∀ k, (∀ p ∈ sets, p.1 ≠ k) → (∀ p ∈ pushes, p.1 ≠ k) →
          dGet nd k = dGet d k) ∧
        (∀ j d0, (j, d0) ∈ c.store → j ≠ i →
          (j, d0) ∈ (replaceStore c i nd).store)) := by
  constructor
  · intro h
    unfold MemoryCollection.update_one
    rw [h]
  · intro d hfone hok
    obtain ⟨_, i, hmem⟩ := find_one_mem c filt d hfone
    have hid : dGet d "_id" = some (.str i) := hwf.2 (i, d) hmem
    have hfindi : c.store.find? (fun p => p.1 == i) = some (i, d) :=
      find?_of_mem_nodupKeys c.store i d hwf.1 hmem
    obtain ⟨nd, hnd1, hnd2, hnd3, hnd4⟩ :=
      applyUpdate_generic d sets pushes hsnd hpnd hdisj hok
    have hdne : d.isEmpty = false := by
      cases d with
      | nil => simp [dGet] at hid
      | cons q qs => rfl
    have hpy : pyGet d "_id" = .str i := by simp [pyGet, hid]
    refine ⟨i, nd, hid, hmem, ?_, hnd2, hnd3, hnd4,
      fun j d0 hj hne => mem_replace_of_ne c.store i j nd d0 hj hne⟩
    unfold MemoryCollection.update_one replaceStore
    rw [hfone]
    simp only [hdne, Bool.false_eq_true, if_false, hpy, hfindi]
    show Option.map (fun nd =>
        { c with store := c.store.map (fun p => if p.1 == i then (p.1, nd) else p) })
      (applyUpdate d [("$set", Value.doc sets), ("$push", Value.doc pushes)]) =
      some (replaceStore c i nd)
    rw [hnd1]
    rfl

/-- C5 witness: a two-document store; the filter locates the first
document, a `$set` on `a` and a `$push` on `hist` both land on it. -/
theorem C5_update_one_both_operators_witness :
    collWF ⟨"t", [("i1", [("_id", .str "i1"), ("a", .nat 0),
        ("hist", .list [])]),
      ("i2", [("_id", .str "i2"), ("a", .nat 0)])], 2⟩ ∧
    (MemoryCollection.mk "t" [("i1", [("_id", .str "i1"), ("a", .nat 0),
        ("hist", .list [])]),
      ("i2", [("_id", .str "i2"), ("a", .nat 0)])] 2).find_one
        [("a", .nat 0)] =
      some [("_id", .str "i1"), ("a", .nat 0), ("hist", .list [])] ∧
    ∃ i nd,
      dGet [("_id", Value.str "i1"), ("a", Value.nat 0),
        ("hist", Value.list [])] "_id" = some (.str i) ∧
      (i, [("_id", Value.str "i1"), ("a", Value.nat 0),
        ("hist", Value.list [])]) ∈
        (MemoryCollection.mk "t" [("i1", [("_id", .str "i1"), ("a", .nat 0),
            ("hist", .list [])]),
          ("i2", [("_id", .str "i2"), ("a", .nat 0)])] 2).store ∧
      (MemoryCollection.mk "t" [("i1", [("_id", .str "i1"), ("a", .nat 0),
          ("hist", .list [])]),
        ("i2", [("_id", .str "i2"), ("a", .nat 0)])] 2).update_one
          [("a", .nat 0)]
          [("$set", .doc [("a", .nat 1)]),
           ("$push", .doc [("hist", .nat 7)])] =
        some (replaceStore (MemoryCollection.mk "t"
          [("i1", [("_id", .str "i1"), ("a", .nat 0), ("hist", .list [])]),
           ("i2", [("_id", .str "i2"), ("a", .nat 0)])] 2) i nd) ∧
      (∀ p ∈ ([("a", Value.nat 1)] : List (String × Value)),
        dGet nd p.1 = some p.2) ∧
      (∀ p ∈ ([("hist", Value.nat 7)] : List (String × Value)),
        dGet nd p.1 = some (.list ((seqField [("_id", Value.str "i1"),
          ("a", Value.nat 0), ("hist", Value.list [])] p.1).getD [] ++
            [p.2]))) :=
  ⟨by constructor
      · decide
      · intro p hp
        simp only [List.mem_cons, List.not_mem_nil, or_false] at hp
        rcases hp with rfl | rfl <;> decide,
   by decide,
   by
    obtain ⟨i, nd, h1, h2, h3, h4, h5, _, _⟩ :=
      (C5_update_one_both_operators
        ⟨"t", [("i1", [("_id", .str "i1"), ("a", .nat 0),
            ("hist", .list [])]),
          ("i2", [("_id", .str "i2"), ("a", .nat 0)])], 2⟩
        [("a", .nat 0)] [("a", .nat 1)] [("hist", .nat 7)]
        ⟨by decide, by
          intro p hp
          simp only [List.mem_cons, List.not_mem_nil, or_false] at hp
          rcases hp with rfl | rfl <;> decide⟩
        (by decide) (by decide)
        (by
          intro p hp q hq
          simp only [List.mem_cons, List.not_mem_nil, or_false] at hp hq
          subst hp
          subst hq
          decide)).2
        [("_id", .str "i1"), ("a", .nat 0), ("hist", .list [])]
        (by decide)
        (by
          intro p hp
          simp only [List.mem_cons, List.not_mem_nil, or_false] at hp
          subst hp
          decide)
    exact ⟨i, nd, h1, h2, h3, h4, h5⟩⟩

/-! Claim C9: broadcast prunes failed observers and delivers to the rest. -/

theorem find?_keyMap {β : Type} (l : List (String × β)) (n : String)
    (f : β → β) :
    (l.map (fun p => if p.1 == n then (p.1, f p.2) else p)).find?
      (fun p => p.1 == n) =
      (l.find? (fun p => p.1 == n)).map (fun p => (p.1, f p.2)) := by
  induction l with
  | nil => rfl
  | cons p ps ih =>
    by_cases hpn : p.1 = n
    · rw [List.map_cons, if_pos (by simp [hpn] : (p.1 == n) = true)]
      rw [List.find?_cons_of_pos _ (by simp [hpn]),
        List.find?_cons_of_pos _ (by simp [hpn])]
      rfl
    · rw [List.map_cons, if_neg (by simp [hpn]),
        List.find?_cons_of_neg _ (by simp [hpn]),
        List.find?_cons_of_neg _ (by simp [hpn])]
      exact ih

theorem connsOf_disconnect (m : ConnectionManager) (project_id : String)
    (ws : Nat) :
    connsOf (m.disconnect project_id ws) project_id =
      (connsOf m project_id).erase ws := by
  unfold ConnectionManager.disconnect
  by_cases hmem : m.active_connections.any (fun p => p.1 == project_id)
  · rw [if_pos hmem]
    unfold connsOf
    show ((List.find? (fun p => p.1 == project_id)
        (m.active_connections.map (fun p =>
          if p.1 == project_id then (p.1, p.2.erase ws) else p))).map
            (fun p => p.2)).getD [] = _
    rw [find?_keyMap m.active_connections project_id (fun l => l.erase ws)]
    cases hfind : m.active_connections.find? (fun p => p.1 == project_id) with
    | none =>
      exfalso
      obtain ⟨p, hp, hpn⟩ := List.any_eq_true.1 hmem
      exact List.find?_eq_none.1 hfind p hp hpn
    | some p => rfl
  · rw [if_neg hmem]
    have hnone : m.active_connections.find? (fun p => p.1 == project_id)
        = none := by
      rw [List.find?_eq_none]
      intro p hp hpn
      exact hmem (List.any_eq_true.2 ⟨p, hp, hpn⟩)
    unfold connsOf
    rw [hnone]
    rfl

theorem broadcastLoop_spec (project_id : String) (fails : Nat → Bool)
    (todo : List Nat) (m : ConnectionManager) (sent done : List Nat)
    (hdone : ∀ w ∈ done, fails w = false)
    (hconns : connsOf m project_id = done ++ todo) :
    (broadcastLoop project_id fails todo m sent).1 =
        sent ++ todo.filter (fun w => !fails w) ∧
      connsOf (broadcastLoop project_id fails todo m sent).2 project_id =
        done ++ todo.filter (fun w => !fails w) := by
  induction todo generalizing m sent done with
  | nil =>
    constructor
    · simp [broadcastLoop]
    · simp only [broadcastLoop, List.filter_nil, List.append_nil]
      rw [hconns, List.append_nil]
  | cons w rest ih =>
    cases hf : fails w with
    | false =>
      have hstep : broadcastLoop project_id fails (w :: rest) m sent =
          broadcastLoop project_id fails rest m (sent ++ [w]) := by
        show (if fails w = true then broadcastLoop project_id fails rest
            (m.disconnect project_id w) sent
          else broadcastLoop project_id fails rest m (sent ++ [w])) = _
        rw [hf, if_neg Bool.false_ne_true]
      have hdone2 : ∀ u ∈ done ++ [w], fails u = false := by
        intro u hu
        rcases List.mem_append.1 hu with hu | hu
        · exact hdone u hu
        · rw [List.mem_singleton.1 hu, hf]
      have hconns2 : connsOf m project_id = (done ++ [w]) ++ rest := by
        rw [hconns, List.append_assoc]
        rfl
      obtain ⟨h1, h2⟩ := ih m (sent ++ [w]) (done ++ [w]) hdone2 hconns2
      rw [hstep]
      constructor
      · rw [h1, List.filter_cons, hf]
        simp [List.append_assoc]
      · rw [h2, List.filter_cons, hf]
        simp [List.append_assoc]
    | true =>
      have hstep : broadcastLoop project_id fails (w :: rest) m sent =
          broadcastLoop project_id fails rest
            (m.disconnect project_id w) sent := by
        show (if fails w = true then broadcastLoop project_id fails rest
            (m.disconnect project_id w) sent
          else broadcastLoop project_id fails rest m (sent ++ [w])) = _
        rw [hf, if_pos rfl]
      have hwnd : w ∉ done := by
        intro hw
        rw [hdone w hw] at hf
        cases hf
      have hconns2 : connsOf (m.disconnect project_id w) project_id =
          done ++ rest := by
        rw [connsOf_disconnect, hconns,
          List.erase_append_right _ hwnd, List.erase_cons_head]
      obtain ⟨h1, h2⟩ := ih (m.disconnect project_id w) sent done hdone hconns2
      rw [hstep]
      constructor
      · rw [h1, List.filter_cons, hf]
        rfl
      · rw [h2, List.filter_cons, hf]
        rfl

/-- C9: when the send to an observer fails, `broadcast` removes exactly the
failing observers from the project's registry — they are absent at the next
broadcast — while every remaining (non-failing) observer of the project
still receives the event, in registration order; `broadcast` is a total
function (the send failure is absorbed), so it never raises to its caller.
`fails` abstracts which observers' sends raise. -/
theorem C9_broadcast_prunes_failed (m : ConnectionManager)
    (project_id : String) (fails : Nat → Bool) :
    (m.broadcast project_id fails).1 =
        (connsOf m project_id).filter (fun w => !fails w) ∧
      connsOf (m.broadcast project_id fails).2 project_id =
        (connsOf m project_id).filter (fun w => !fails w) := by
  have h := broadcastLoop_spec project_id fails (connsOf m project_id) m [] []
    (fun w hw => absurd hw (List.not_mem_nil w)) rfl
  unfold ConnectionManager.broadcast
  exact ⟨h.1.trans (by rw [List.nil_append]), h.2.trans (by rw [List.nil_append])⟩

/-! Claim C6: copy-on-read isolation of find/find_one results.

The pure value model above cannot express object sharing, so the copy made
by `find` (`yield dict(doc)` — a SHALLOW `dict` copy in the source) is
modelled here with an explicit heap of Python objects: dicts and lists hold
references (addresses), and `dict(doc)` allocates a fresh dict whose fields
alias the original value objects. -/

/-- A heap address. -/
abbrev Addr := Nat

/-- A Python object on the heap: immutable scalars, and the two mutable
containers, which hold references to their elements. -/
inductive HObj where
  | null : HObj
  | str : String → HObj
  | nat : Nat → HObj
  | list : List Addr → HObj
  | dict : List (String × Addr) → HObj
deriving DecidableEq

/-- The heap: address → object, plus the next fresh address. -/
structure Heap where
  objs : List (Addr × HObj)
  next : Addr
deriving DecidableEq

def Heap.get (h : Heap) (a : Addr) : Option HObj :=
  (h.objs.find? (fun p => p.1 == a)).map (fun p => p.2)

/-- In-place mutation of the object stored at `a`. -/
def Heap.set (h : Heap) (a : Addr) (o : HObj) : Heap :=
  ⟨h.objs.map (fun p => if p.1 == a then (p.1, o) else p), h.next⟩

/-- Allocation of a fresh object. -/
def Heap.alloc (h : Heap) (o : HObj) : Addr × Heap :=
  (h.next, ⟨h.objs ++ [(h.next, o)], h.next + 1⟩)

/-- `dict(doc)`: a fresh dict whose field list aliases the original's value
objects — the shallow copy taken by `MemoryCollection.find`. -/
def shallowCopy (h : Heap) (docAddr : Addr) : Option (Addr × Heap) :=
  match h.get docAddr with
  | some (.dict fields) => some (h.alloc (.dict fields))
  | _ => none

/-- Heap-level `find_one` with the empty filter (every document matches the
empty filter vacuously): the generator of `find` yields `dict(doc)` for the
first stored document, and `find_one` returns `dict(doc)` of that yield —
two shallow copies. -/
def find_oneH (store : List (String × Addr)) (h : Heap) :
    Option (Addr × Heap) :=
  match store with
  | [] => none
  | (_, docAddr) :: _ =>
    match shallowCopy h docAddr with
    | some (a1, h1) =>
      match shallowCopy h1 a1 with
      | some (a2, h2) => some (a2, h2)
      | none => none
    | none => none

/-- The caller's mutation `returned[k].append(x)` on a document returned by
find/find_one: follow the field's reference and mutate the shared list
object in place. -/
def appendToField (h : Heap) (docAddr : Addr) (k : String) (x : Addr) :
    Option Heap :=
  match h.get docAddr with
  | some (.dict fields) =>
    match (fields.find? (fun p => p.1 == k)).map (fun p => p.2) with
    | some la =>
      match h.get la with
      | some (.list es) => some (h.set la (.list (es ++ [x])))
      | _ => none
    | none => none
  | _ => none

/-- Deep read of a heap object into a pure `Value` (fuel-bounded; the
scenario heaps are acyclic and shallow). What a JSON serialization or a
test assertion would observe. -/
def materialize : Nat → Heap → Addr → Value
  | 0, _, _ => .null
  | fuel + 1, h, a =>
    match h.get a with
    | some .null => .null
    | some (.str s) => .str s
    | some (.nat n) => .nat n
    | some (.list es) => .list (es.map (materialize fuel h))
    | some (.dict fs) => .doc (fs.map (fun p => (p.1, materialize fuel h p.2)))
    | none => .null

/-- The scenario heap: one stored lead dict at address 3 with `_id` at 1
and an (initially empty) `history` list at 2; address 9 holds the entry a
caller will append. -/
def c6heap : Heap :=
  ⟨[(1, .str "mem_lead_1"), (2, .list []),
    (3, .dict [("_id", 1), ("history", 2)]), (9, .nat 7)], 10⟩

/-- The store of the scenario collection: id → document address. -/
def c6store : List (String × Addr) := [("mem_lead_1", 3)]

/-- What a caller reading the store sees before any mutation. -/
def c6before : Value := materialize 10 c6heap 3

/-- What a subsequent `find_one` with the same (empty) filter returns after
a first caller mutated the `history` list inside the document it was
handed. -/
def c6after : Value :=
  match find_oneH c6store c6heap with
  | some (a, h1) =>
    match appendToField h1 a "history" 9 with
    | some h2 =>
      match find_oneH c6store h2 with
      | some (a2, h3) => materialize 10 h3 a2
      | none => .null
    | none => .null
  | none => .null

/-- C6: the claim fails on the code. `find`/`find_one` return `dict(doc)` —
a SHALLOW copy sharing every nested object with the store — so appending to
the `history` list inside a returned document changes what a subsequent
`find_one` with the same filter returns: the store's observable content
gains the appended entry. (Mutating a top-level field of the returned dict
would not leak; the nested sequences do.) -/
theorem C6_shallow_copy_leaks_nested_mutation :
    c6before = .doc [("_id", .str "mem_lead_1"), ("history", .list [])] ∧
    c6after = .doc [("_id", .str "mem_lead_1"),
      ("history", .list [.nat 7])] ∧
    c6after ≠ c6before := by
  refine ⟨by rfl, by rfl, ?_⟩
  intro h
  rw [show c6after = .doc [("_id", .str "mem_lead_1"),
      ("history", .list [.nat 7])] from rfl,
    show c6before = .doc [("_id", .str "mem_lead_1"),
      ("history", .list [])] from rfl] at h
  cases h

/-! Claim C3: every successful advance appends exactly one history entry. -/

theorem advanceNewLead_dGet_other (lead : Doc) (pid lead_id : String)
    (ns st : Value) (now : Nat) (hist : List Value) (k : String)
    (h1 : k ≠ "history") (h2 : k ≠ "current_step") (h3 : k ≠ "status")
    (h4 : k ≠ "updated_at") :
    dGet (advanceNewLead lead pid lead_id ns st now hist) k = dGet lead k := by
  unfold advanceNewLead
  rw [dGet_dSet_ne _ _ _ _ (Ne.symm h1)]
  apply dGet_applySet_not_mem
  intro p hp
  fin_cases hp <;> simp [Ne.symm h2, Ne.symm h3, Ne.symm h4]

theorem advanceNewLead_dGet_current (lead : Doc) (pid lead_id : String)
    (ns st : Value) (now : Nat) (hist : List Value) :
    dGet (advanceNewLead lead pid lead_id ns st now hist) "current_step" =
      some ns := by
  unfold advanceNewLead
  rw [dGet_dSet_ne _ _ _ _ (by decide)]
  show dGet (dSet (dSet (dSet lead "current_step" ns) "status" st)
    "updated_at" (.nat now)) "current_step" = some ns
  rw [dGet_dSet_ne _ _ _ _ (by decide), dGet_dSet_ne _ _ _ _ (by decide),
    dGet_dSet_self]

theorem advanceNewLead_dGet_history (lead : Doc) (pid lead_id : String)
    (ns st : Value) (now : Nat) (hist : List Value) :
    dGet (advanceNewLead lead pid lead_id ns st now hist) "history" =
      some (.list (hist ++
        [.doc (advanceEntry pid lead_id (pyGet lead "current_step") ns now)])) := by
  unfold advanceNewLead
  rw [dGet_dSet_self]

theorem advance_lead_ok_inversion (db : MemoryDB) (lead_id : String)
    (to_step : Option String) (now : Nat)
    (out : MemoryDB × List BroadcastEvt × Doc)
    (h : advance_lead db lead_id to_step now = .ok out) :
    ∃ lead project steps,
      (dbGet db "lead").find_one [("_id", .str lead_id)] = some lead ∧
      project_lookup db lead = some project ∧
      stepsOf project = some steps ∧ steps ≠ [] := by
  unfold advance_lead at h
  cases hl : (dbGet db "lead").find_one [("_id", .str lead_id)] with
  | none =>
    simp only [hl] at h
    exact absurd h (by simp)
  | some lead =>
    simp only [hl] at h
    cases hp : project_lookup db lead with
    | none =>
      simp only [hp] at h
      exact absurd h (by simp)
    | some project =>
      simp only [hp] at h
      cases hs : stepsOf project with
      | none =>
        simp only [hs] at h
        exact absurd h (by simp)
      | some steps =>
        simp only [hs] at h
        refine ⟨lead, project, steps, rfl, hp, hs, ?_⟩
        intro hemp
        rw [hemp] at h
        simp at h

/-- The shape of the history entries appended by a run of advances: each is
a dict of type `"advanced"` carrying the lead's id, its project's id and a
creation instant, whose `from_step` is the current step before that advance
and whose `to_step` is the current step after it; consecutive entries chain
from `first` to `final`. -/
def chainedEntries (lead_id pid : String) :
    List Value → Value → Value → Prop
  | [], first, final => first = final
  | e :: es, first, final => ∃ ed : Doc, e = .doc ed ∧
      dGet ed "type" = some (.str "advanced") ∧
      dGet ed "lead_id" = some (.str lead_id) ∧
      dGet ed "project_id" = some (.str pid) ∧
      (∃ t : Nat, dGet ed "created_at" = some (.nat t)) ∧
      dGet ed "from_step" = some first ∧
      ∃ mid, dGet ed "to_step" = some mid ∧
        chainedEntries lead_id pid es mid final

/-- C3: a run of N successful advances on one lead grows its history by
exactly N entries, appended after the untouched previous entries (so no
prior entry is mutated or removed); every appended entry is a dict of type
"advanced" carrying the lead's id, its project's id and a creation
instant, and the entries chain: each `from_step` is the lead's
`current_step` just before that advance and each `to_step` the
`current_step` just after, from the initial step to the final one. -/
theorem C3_history_append_chain (lead_id pid : String) (db' : MemoryDB)
    (hpne : pid ≠ "")
    (calls : List (Option String × Nat)) (db : MemoryDB) (lead : Doc)
    (hist : List Value)
    (hwf : collWF (dbGet db "lead"))
    (hlead : (dbGet db "lead").find_one [("_id", .str lead_id)] = some lead)
    (hpid : dGet lead "project_id" = some (.str pid))
    (hhist : dGet lead "history" = some (.list hist))
    (hrun : advance_seq db lead_id calls = .ok db') :
    ∃ lead',
      (dbGet db' "lead").find_one [("_id", .str lead_id)] = some lead' ∧
      ∃ es, dGet lead' "history" = some (.list (hist ++ es)) ∧
        es.length = calls.length ∧
        chainedEntries lead_id pid es (pyGet lead "current_step")
          (pyGet lead' "current_step") := by
  induction calls generalizing db lead hist with
  | nil =>
    have hdb : db = db' := by
      simpa [advance_seq] using hrun
    subst hdb
    exact ⟨lead, hlead, [], by simpa using hhist, rfl, rfl⟩
  | cons c cs ih =>
    cases hstep : advance_lead db lead_id c.1 c.2 with
    | error e =>
      simp only [advance_seq, hstep] at hrun
      exact absurd hrun (by simp)
    | ok out =>
      obtain ⟨db1, evts, resp⟩ := out
      obtain ⟨lead2, project, steps, hl2, hproj, hsteps, hne⟩ :=
        advance_lead_ok_inversion db lead_id c.1 c.2 (db1, evts, resp) hstep
      have hleadeq : lead2 = lead := by
        rw [hlead] at hl2
        exact (Option.some.inj hl2).symm
      rw [hleadeq] at hproj
      have hpyl : pyGet lead "project_id" = .str pid := by simp [pyGet, hpid]
      have htr : pyTruthy (pyGet lead "project_id") = true := by
        rw [hpyl]
        show (!pid.isEmpty) = true
        cases hh : pid.isEmpty
        · rfl
        · exact absurd ((String.isEmpty_iff pid).1 hh) hpne
      have hproj2 : (dbGet db "project").find_one [("_id", .str pid)] =
          some project := by
        unfold project_lookup at hproj
        rw [if_pos htr, hpyl] at hproj
        exact hproj
      have hpp : pyGet project "_id" = .str pid := by
        have hmf := (find_one_mem _ _ _ hproj2).1
        rw [match_filter_id] at hmf
        exact of_decide_eq_true hmf
      have hpidstr : pyToString (pyGet project "_id") = pid := by
        rw [hpp]
        rfl
      have hsf : seqField lead "history" = some hist := by
        unfold seqField
        rw [hhist]
      obtain ⟨ns, st, newLead, hns, hst, hnew, heq⟩ :=
        advance_lead_ok db lead_id c.1 c.2 lead project steps hist hwf hlead
          hproj hsteps hne hsf
      simp only [advance_seq, hstep] at hrun
      rw [heq] at hstep
      have hdb1 : db1 = dbSet db "lead"
          (replaceStore (dbGet db "lead") lead_id newLead) :=
        (congrArg (fun x => x.1) (Except.ok.inj hstep)).symm
      subst hdb1
      have hfind : (dbGet db "lead").store.find? (fun p => p.1 == lead_id) =
          some (lead_id, lead) :=
        (store_entry_of_find_one _ lead_id lead hwf hlead).1
      have hid : dGet lead "_id" = some (.str lead_id) :=
        (store_entry_of_find_one _ lead_id lead hwf hlead).2
      have hnid : dGet newLead "_id" = some (.str lead_id) := by
        rw [hnew, advanceNewLead_dGet_other _ _ _ _ _ _ _ _ (by decide)
          (by decide) (by decide) (by decide)]
        exact hid
      have hwf1 : collWF (dbGet (dbSet db "lead"
          (replaceStore (dbGet db "lead") lead_id newLead)) "lead") := by
        rw [dbGet_dbSet_self]
        exact collWF_replace _ lead_id newLead hwf hnid
      have hlead1 : (dbGet (dbSet db "lead"
          (replaceStore (dbGet db "lead") lead_id newLead)) "lead").find_one
            [("_id", .str lead_id)] = some newLead := by
        rw [dbGet_dbSet_self]
        exact replace_find_one _ lead_id newLead lead hwf hfind hnid
      have hpid1 : dGet newLead "project_id" = some (.str pid) := by
        rw [hnew, advanceNewLead_dGet_other _ _ _ _ _ _ _ _ (by decide)
          (by decide) (by decide) (by decide)]
        exact hpid
      have hhist1 : dGet newLead "history" = some (.list (hist ++
          [.doc (advanceEntry pid lead_id (pyGet lead "current_step")
            ns c.2)])) := by
        rw [hnew, advanceNewLead_dGet_history, hpidstr]
      obtain ⟨lead', hfound', es', hhist', hlen', hchain'⟩ :=
        ih (dbSet db "lead" (replaceStore (dbGet db "lead") lead_id newLead))
          newLead
          (hist ++ [.doc (advanceEntry pid lead_id (pyGet lead "current_step")
            ns c.2)])
          hwf1 hlead1 hpid1 hhist1 hrun
      have hcur : pyGet newLead "current_step" = ns := by
        unfold pyGet
        rw [hnew, advanceNewLead_dGet_current]
        rfl
      refine ⟨lead', hfound',
        .doc (advanceEntry pid lead_id (pyGet lead "current_step") ns c.2)
          :: es', ?_, ?_, ?_⟩
      · rw [hhist', List.append_assoc]
        rfl
      · simp [hlen']
      · refine ⟨advanceEntry pid lead_id (pyGet lead "current_step") ns c.2,
          rfl, rfl, rfl, rfl, ⟨c.2, rfl⟩, rfl, ns, rfl, ?_⟩
        rw [← hcur]
        exact hchain'

/-- C3 witness: the demo-shaped scenario, one advance on a lead at step A
of `[A, B]`. The hypotheses are discharged by evaluation and the
conclusion is obtained from the theorem itself. -/
theorem C3_history_append_chain_witness :
    ∃ lead',
      (dbGet (dbSet ⟨[("lead", ⟨"lead", [("l1",
          [("_id", .str "l1"), ("project_id", .str "p1"),
           ("current_step", .str "A"), ("status", .str "active"),
           ("history", .list [])])], 1⟩),
        ("project", ⟨"project", [("p1",
          [("_id", .str "p1"), ("name", .str "Demo"),
           ("steps", .list [.str "A", .str "B"])])], 1⟩)]⟩ "lead"
        (replaceStore (dbGet ⟨[("lead", ⟨"lead", [("l1",
          [("_id", .str "l1"), ("project_id", .str "p1"),
           ("current_step", .str "A"), ("status", .str "active"),
           ("history", .list [])])], 1⟩),
        ("project", ⟨"project", [("p1",
          [("_id", .str "p1"), ("name", .str "Demo"),
           ("steps", .list [.str "A", .str "B"])])], 1⟩)]⟩ "lead") "l1"
          (advanceNewLead [("_id", .str "l1"), ("project_id", .str "p1"),
            ("current_step", .str "A"), ("status", .str "active"),
            ("history", .list [])] "p1" "l1" (.str "B") (.str "won") 5 [])))
        "lead").find_one [("_id", .str "l1")] = some lead' ∧
      ∃ es, dGet lead' "history" = some (.list ([] ++ es)) ∧
        es.length = ([(none, 5)] :
          List (Option String × Nat)).length ∧
        chainedEntries "l1" "p1" es
          (pyGet [("_id", Value.str "l1"), ("project_id", Value.str "p1"),
            ("current_step", Value.str "A"), ("status", Value.str "active"),
            ("history", Value.list [])] "current_step")
          (pyGet lead' "current_step") := by
  have h := C3_history_append_chain "l1" "p1"
    (dbSet ⟨[("lead", ⟨"lead", [("l1",
        [("_id", .str "l1"), ("project_id", .str "p1"),
         ("current_step", .str "A"), ("status", .str "active"),
         ("history", .list [])])], 1⟩),
      ("project", ⟨"project", [("p1",
        [("_id", .str "p1"), ("name", .str "Demo"),
         ("steps", .list [.str "A", .str "B"])])], 1⟩)]⟩ "lead"
      (replaceStore (dbGet ⟨[("lead", ⟨"lead", [("l1",
        [("_id", .str "l1"), ("project_id", .str "p1"),
         ("current_step", .str "A"), ("status", .str "active"),
         ("history", .list [])])], 1⟩),
      ("project", ⟨"project", [("p1",
        [("_id", .str "p1"), ("name", .str "Demo"),
         ("steps", .list [.str "A", .str "B"])])], 1⟩)]⟩ "lead") "l1"
        (advanceNewLead [("_id", .str "l1"), ("project_id", .str "p1"),
          ("current_step", .str "A"), ("status", .str "active"),
          ("history", .list [])] "p1" "l1" (.str "B") (.str "won") 5 [])))
    (by decide) [(none, 5)]
    ⟨[("lead", ⟨"lead", [("l1",
        [("_id", .str "l1"), ("project_id", .str "p1"),
         ("current_step", .str "A"), ("status", .str "active"),
         ("history", .list [])])], 1⟩),
      ("project", ⟨"project", [("p1",
        [("_id", .str "p1"), ("name", .str "Demo"),
         ("steps", .list [.str "A", .str "B"])])], 1⟩)]⟩
    [("_id", .str "l1"), ("project_id", .str "p1"),
     ("current_step", .str "A"), ("status", .str "active"),
     ("history", .list [])] []
    ⟨by decide, by
      intro p hp
      have hp2 : p = ("l1", [("_id", Value.str "l1"),
          ("project_id", Value.str "p1"), ("current_step", Value.str "A"),
          ("status", Value.str "active"), ("history", Value.list [])]) := by
        cases hp with
        | head => rfl
        | tail _ h => cases h
      subst hp2
      decide⟩
    (by decide) (by decide) (by decide) (by rfl)
  exact h
